import Mathlib

/-!
Verification development for the workflow execution core of the Anything
automation platform (repository `anything-protocol/Anything`).

The Rust sources under `src/core/anything-server/src/` are shallowly embedded:
Rust `String`/`&str` values become `List Char` (the delimiters `{{`, `}}`,
`[`, `]`, `.` searched by the templater are all ASCII, so byte offsets and
character offsets coincide on every input the claims exercise), `serde_json::Value`
becomes the mutual inductive `Json`, fallible code returns `Except`, and the
two reachable `panic!` sites (an out-of-order string slice and
`serde_json::Number::from_f64(..).unwrap()`) are made explicit as a dedicated
error constructor.  Stateful processor code becomes explicit state passing over
`ProcState`, with external collaborators (database, plugins) supplied as
oracle functions in an environment record.
-/

namespace Anything

instance {ε α : Type} [DecidableEq ε] [DecidableEq α] : DecidableEq (Except ε α) := fun a b =>
  match a, b with
  | .ok x, .ok y => if h : x = y then .isTrue (by simp [h]) else .isFalse (by simp [h])
  | .error x, .error y => if h : x = y then .isTrue (by simp [h]) else .isFalse (by simp [h])
  | .ok _, .error _ => .isFalse (by simp)
  | .error _, .ok _ => .isFalse (by simp)

/-- Rust strings are embedded as lists of characters. -/
abbrev Chars := List Char

/-- Two-character pattern search: index of the first occurrence of the
two-character pattern `a b`, embedding Rust `str::find("xy")` for the
two-character needles `{{` and `}}` used by the templater. -/
def find2 : Chars → Char → Char → Option Nat
  | [], _, _ => none
  | [_], _, _ => none
  | x :: y :: rest, a, b =>
    if x = a ∧ y = b then some 0 else (find2 (y :: rest) a b).map (· + 1)

/-- Single-character search, embedding Rust `str::find(char)`. -/
def findCh : Chars → Char → Option Nat
  | [], _ => none
  | x :: rest, a => if x = a then some 0 else (findCh rest a).map (· + 1)

/-- Whitespace trim from both ends, embedding Rust `str::trim`.  Rust trims
`char::is_whitespace` (Unicode `White_Space`); `Char.isWhitespace` agrees on
the ASCII whitespace every claim input uses. -/
def trimChars (s : Chars) : Chars :=
  (s.dropWhile Char.isWhitespace).reverse.dropWhile Char.isWhitespace |>.reverse

/-- Rust `str::split('.')`: splitting never yields an empty list (splitting the
empty string yields one empty piece), matching `List.splitOn`. -/
def splitDots (s : Chars) : List Chars := s.splitOn '.'

/-- Rust `str::starts_with`. -/
def startsWith2 (s : Chars) (a b : Char) : Bool :=
  match s with
  | x :: y :: _ => x = a ∧ y = b
  | _ => false

/-- Rust `str::ends_with` for a two-character pattern. -/
def endsWith2 (s : Chars) (a b : Char) : Bool :=
  startsWith2 s.reverse b a

/-- Rust `str::parse::<usize>()`: optional `+` sign, then one or more decimal
digits, value below `2^64`; anything else is a parse error. -/
def parseUsize (s : Chars) : Option Nat :=
  let digits := match s with
    | '+' :: rest => rest
    | rest => rest
  if digits = [] then none
  else if digits.all Char.isDigit then
    let v := digits.foldl (fun acc c => acc * 10 + (c.toNat - '0'.toNat)) 0
    if v < 2 ^ 64 then some v else none
  else none

/-- Rust `str::parse::<bool>()`: exactly `true` or `false`. -/
def parseRustBool (s : Chars) : Option Bool :=
  if s = "true".data then some true
  else if s = "false".data then some false
  else none

/-! ## JSON values

`serde_json::Value` with the number model made explicit: serde stores either
an integer (`u64`/`i64`) or an `f64`, and its `PartialEq` never identifies the
two.  The `f64` payload is abstracted by the exact rational value of the
parsed decimal literal; no claim depends on double rounding. -/

/-- A `serde_json::Number`: integer-backed or float-backed. -/
inductive JNum where
  | int (n : Int)
  | float (q : Rat)
  deriving DecidableEq

mutual
inductive Json where
  | null : Json
  | bool (b : Bool) : Json
  | num (n : JNum) : Json
  | str (s : Chars) : Json
  | arr (items : JsonList) : Json
  | obj (fields : JsonFields) : Json
  deriving DecidableEq

inductive JsonList where
  | nil : JsonList
  | cons (hd : Json) (tl : JsonList) : JsonList
  deriving DecidableEq

inductive JsonFields where
  | nil : JsonFields
  | cons (k : Chars) (v : Json) (tl : JsonFields) : JsonFields
  deriving DecidableEq
end

/-- Convenience constructor from an ordinary list. -/
def JsonList.ofList : List Json → JsonList
  | [] => .nil
  | x :: xs => .cons x (JsonList.ofList xs)

/-- Convenience constructor from an ordinary association list. -/
def JsonFields.ofList : List (Chars × Json) → JsonFields
  | [] => .nil
  | (k, v) :: xs => .cons k v (JsonFields.ofList xs)

/-- Object member lookup, embedding `serde_json::Value::get(&str)` on objects
(serde maps hold unique keys; the first match decides). -/
def JsonFields.lookupKey : JsonFields → Chars → Option Json
  | .nil, _ => none
  | .cons k v tl, key => if k = key then some v else tl.lookupKey key

/-- Array element access, embedding `serde_json::Value::get(usize)`. -/
def JsonList.getIdx : JsonList → Nat → Option Json
  | .nil, _ => none
  | .cons h _, 0 => some h
  | .cons _ t, n + 1 => t.getIdx n

/-- `Value::get(&str)`: object key lookup; `None` on every other shape. -/
def Json.getKey : Json → Chars → Option Json
  | .obj fields, key => fields.lookupKey key
  | _, _ => none

def Json.isArr : Json → Bool
  | .arr _ => true
  | _ => false

/-- `Value::get(usize)` restricted to arrays as the processor uses it. -/
def Json.getIdx : Json → Nat → Option Json
  | .arr items, i => items.getIdx i
  | _, _ => none

/-- Removal of every binding of a key from an association list (the
`HashMap` remove/replace primitive shared by the cache and map embeddings). -/
def removeKey {κ α : Type} [DecidableEq κ] : List (κ × α) → κ → List (κ × α)
  | [], _ => []
  | (k, v) :: rest, key =>
    if k = key then removeKey rest key else (k, v) :: removeKey rest key

/-! ## Rust `f64` parsing

`str::parse::<f64>()` accepts an optional sign followed by either one of the
special literals `inf` / `infinity` / `nan` (ASCII case-insensitive) or a
decimal number `digits [. digits] [(e|E) [sign] digits]` with at least one
mantissa digit.  The numeric value is kept as an exact rational; rounding to
the nearest double is not modelled (no claim observes the rounded magnitude),
but overflow of the decimal to the infinite range is, since
`serde_json::Number::from_f64` rejects every non-finite double. -/

/-- Result of `str::parse::<f64>()`: a finite value, a NaN, or an infinity. -/
inductive F64Val where
  | finite (q : Rat)
  | nan
  | inf (neg : Bool)
  deriving DecidableEq

/-- Smallest magnitude that `f64` rounds to infinity
(`2^1024 * (1 - 2^-54)`, the midpoint above the largest finite double). -/
def f64Huge : Rat := (2 ^ 1024 * (2 ^ 54 - 1) : Int) / (2 ^ 54 : Int)

def digitsVal (ds : Chars) : Nat :=
  ds.foldl (fun acc c => acc * 10 + (c.toNat - '0'.toNat)) 0

def lowerEq (s : Chars) (lit : String) : Bool :=
  s.map Char.toLower = lit.data

/-- The unsigned part of the `f64` grammar. -/
def parseF64Body (s : Chars) : Option F64Val :=
  if lowerEq s "inf" ∨ lowerEq s "infinity" then some (.inf false)
  else if lowerEq s "nan" then some .nan
  else
    let intDigits := s.takeWhile Char.isDigit
    let rest1 := s.drop intDigits.length
    let (fracDigits, rest2) :=
      match rest1 with
      | '.' :: r => (r.takeWhile Char.isDigit, r.drop (r.takeWhile Char.isDigit).length)
      | r => ([], r)
    if intDigits = [] ∧ fracDigits = [] then none
    else
      let mant : Rat := ((digitsVal intDigits : Int) : Rat) +
        ((digitsVal fracDigits : Int) : Rat) / ((10 : Rat) ^ fracDigits.length)
      match rest2 with
      | [] => some (.finite mant)
      | 'e' :: ex => (parseExp ex).map fun e => .finite (mant * (10 : Rat) ^ e)
      | 'E' :: ex => (parseExp ex).map fun e => .finite (mant * (10 : Rat) ^ e)
      | _ => none
where
  parseExp (ex : Chars) : Option Int :=
    let (neg, ds) := match ex with
      | '+' :: r => (false, r)
      | '-' :: r => (true, r)
      | r => (false, r)
    if ds ≠ [] ∧ ds.all Char.isDigit then
      some (if neg then -(digitsVal ds : Int) else (digitsVal ds : Int))
    else none

/-- `str::parse::<f64>()`, with decimal overflow to the infinite range made
explicit. -/
def rustParseF64 (s : Chars) : Option F64Val :=
  let (neg, body) := match s with
    | '+' :: r => (false, r)
    | '-' :: r => (true, r)
    | r => (false, r)
  match parseF64Body body with
  | none => none
  | some .nan => some .nan
  | some (.inf _) => some (.inf neg)
  | some (.finite q) =>
    if q ≥ f64Huge then some (.inf neg)
    else some (.finite (if neg then -q else q))

/-- `serde_json::Number::from_f64`: `None` exactly on NaN and infinities. -/
def numberFromF64 : F64Val → Option JNum
  | .finite q => some (.float q)
  | .nan => none
  | .inf _ => none

/-! ## `serde_json::from_str`

The templater's path resolution re-parses intermediate string values as JSON
(`templater/mod.rs:108`), so a model of `serde_json::from_str` is required.
Recursive descent with fuel; `length + 1` fuel always suffices because each
recursive level first consumes at least one character. -/

def skipWs : Chars → Chars :=
  List.dropWhile fun c => c = ' ' ∨ c = '\t' ∨ c = '\n' ∨ c = '\r'

/-- One string-escape step (`\uXXXX` surrogate pairing is not modelled; a lone
escape in the Basic Multilingual Plane decodes, anything else fails). -/
def unescape (e : Char) (rest : Chars) : Option (Char × Chars) :=
  if e = '"' then some ('"', rest)
  else if e = '\\' then some ('\\', rest)
  else if e = '/' then some ('/', rest)
  else if e = 'b' then some ('\x08', rest)
  else if e = 'f' then some ('\x0c', rest)
  else if e = 'n' then some ('\n', rest)
  else if e = 'r' then some ('\r', rest)
  else if e = 't' then some ('\t', rest)
  else if e = 'u' then
    match rest with
    | h1 :: h2 :: h3 :: h4 :: r =>
      if [h1, h2, h3, h4].all (fun c => c.isDigit ∨ ('a' ≤ c ∧ c ≤ 'f') ∨ ('A' ≤ c ∧ c ≤ 'F')) then
        let hv := fun (c : Char) =>
          if c.isDigit then c.toNat - '0'.toNat
          else if 'a' ≤ c ∧ c ≤ 'f' then c.toNat - 'a'.toNat + 10
          else c.toNat - 'A'.toNat + 10
        let n := ((hv h1 * 16 + hv h2) * 16 + hv h3) * 16 + hv h4
        if n.isValidChar then some (Char.ofNat n, r) else none
      else none
    | _ => none
  else none

def parseJStringBody : Nat → Chars → Option (Chars × Chars)
  | 0, _ => none
  | _, [] => none
  | fuel + 1, c :: rest =>
    if c = '"' then some ([], rest)
    else if c = '\\' then
      match rest with
      | [] => none
      | e :: r =>
        match unescape e r with
        | none => none
        | some (d, r') =>
          (parseJStringBody fuel r').map fun (cs, r'') => (d :: cs, r'')
    else if c.toNat < 0x20 then none
    else (parseJStringBody fuel rest).map fun (cs, r') => (c :: cs, r')

/-- JSON number token: `-? (0 | [1-9][0-9]*) (. [0-9]+)? ([eE][+-]?[0-9]+)?`.
Integral literals in the `i64`/`u64` range become integer-backed numbers;
everything else falls back to the (rational-abstracted) float backing, as
serde_json does without the `arbitrary_precision` feature. -/
def parseJNumber (s : Chars) : Option (JNum × Chars) :=
  let (neg, s1) := match s with
    | '-' :: r => (true, r)
    | r => (false, r)
  let intDigits := s1.takeWhile Char.isDigit
  if intDigits = [] then none
  else if intDigits.length > 1 ∧ intDigits.head? = some '0' then none
  else
    let s2 := s1.drop intDigits.length
    let (dotSeen, fracDigits, s3) :=
      match s2 with
      | '.' :: r =>
        let f := r.takeWhile Char.isDigit
        (true, f, r.drop f.length)
      | r => (false, ([], r))
    if dotSeen ∧ fracDigits = [] then none
    else
      let expPart : Option Chars :=
        match s3 with
        | 'e' :: r => some r
        | 'E' :: r => some r
        | _ => none
      match expPart with
      | none =>
        if fracDigits = [] then
          let v : Int := if neg then -(digitsVal intDigits : Int) else (digitsVal intDigits : Int)
          if -(2 ^ 63) ≤ v ∧ v < 2 ^ 64 then some (.int v, s3)
          else
            let q : Rat := (v : Rat)
            some (.float q, s3)
        else
          let q : Rat := ((digitsVal intDigits : Int) : Rat) +
            ((digitsVal fracDigits : Int) : Rat) / ((10 : Rat) ^ fracDigits.length)
          some (.float (if neg then -q else q), s3)
      | some r =>
        let (eneg, ds0) := match r with
          | '+' :: rr => (false, rr)
          | '-' :: rr => (true, rr)
          | rr => (false, rr)
        let ds := ds0.takeWhile Char.isDigit
        if ds = [] then none
        else
          let e : Int := if eneg then -(digitsVal ds : Int) else (digitsVal ds : Int)
          let base : Rat := ((digitsVal intDigits : Int) : Rat) +
            ((digitsVal fracDigits : Int) : Rat) / ((10 : Rat) ^ fracDigits.length)
          let q := (if neg then -base else base) * (10 : Rat) ^ e
          some (.float q, ds0.drop ds.length)

mutual
def parseJValue : Nat → Chars → Option (Json × Chars)
  | 0, _ => none
  | fuel + 1, s =>
    match skipWs s with
    | 'n' :: 'u' :: 'l' :: 'l' :: r => some (.null, r)
    | 't' :: 'r' :: 'u' :: 'e' :: r => some (.bool true, r)
    | 'f' :: 'a' :: 'l' :: 's' :: 'e' :: r => some (.bool false, r)
    | '"' :: r => (parseJStringBody (r.length + 1) r).map fun (cs, r') => (.str cs, r')
    | '[' :: r =>
      match skipWs r with
      | ']' :: r' => some (.arr .nil, r')
      | r' => (parseJItems fuel r').map fun (items, r'') => (.arr items, r'')
    | '{' :: r =>
      match skipWs r with
      | '}' :: r' => some (.obj .nil, r')
      | r' => (parseJMembers fuel r').map fun (fields, r'') => (.obj fields, r'')
    | r => (parseJNumber r).map fun (n, r') => (.num n, r')

def parseJItems : Nat → Chars → Option (JsonList × Chars)
  | 0, _ => none
  | fuel + 1, s =>
    match parseJValue fuel s with
    | none => none
    | some (v, r) =>
      match skipWs r with
      | ',' :: r' => (parseJItems fuel r').map fun (tl, r'') => (.cons v tl, r'')
      | ']' :: r' => some (.cons v .nil, r')
      | _ => none

def parseJMembers : Nat → Chars → Option (JsonFields × Chars)
  | 0, _ => none
  | fuel + 1, s =>
    match skipWs s with
    | '"' :: r =>
      match parseJStringBody (r.length + 1) r with
      | none => none
      | some (key, r1) =>
        match skipWs r1 with
        | ':' :: r2 =>
          match parseJValue fuel r2 with
          | none => none
          | some (v, r3) =>
            match skipWs r3 with
            | ',' :: r4 => (parseJMembers fuel r4).map fun (tl, r5) => (.cons key v tl, r5)
            | '}' :: r4 => some (.cons key v .nil, r4)
            | _ => none
        | _ => none
    | _ => none
end

/-- `serde_json::from_str::<Value>`: a complete JSON document with optional
surrounding whitespace. -/
def parseJsonStr (s : Chars) : Option Json :=
  match parseJValue (s.length + 1) s with
  | some (v, rest) => if skipWs rest = [] then some v else none
  | none => none

/-! ## Compact serialization (`Value::to_string`)

The templater stringifies non-string values during interpolation and under
`string` validation via `Value::to_string()` (compact serde serialization).
Integer numbers serialize exactly; the float case abstracts ryu's
shortest-roundtrip output by a bounded decimal expansion, which no claim
theorem depends on. -/

def natToChars (n : Nat) : Chars := Nat.toDigits 10 n

def intToChars (i : Int) : Chars :=
  if i < 0 then '-' :: natToChars (-i).toNat else natToChars i.toNat

/-- Up to `fuel` fractional decimal digits of a rational in `[0, 1)`. -/
def fracDigitsOf : Nat → Rat → Chars
  | 0, _ => []
  | fuel + 1, q =>
    if q = 0 then []
    else
      let q10 := q * 10
      let d := q10.floor
      natToChars d.toNat ++ fracDigitsOf fuel (q10 - (d : Rat))

/-- Abstraction of ryu float formatting (unused by any claim theorem). -/
def floatToChars (q : Rat) : Chars :=
  let sign : Chars := if q < 0 then ['-'] else []
  let a := |q|
  let ip := a.floor
  let frac := a - (ip : Rat)
  sign ++ intToChars ip ++
    (if frac = 0 then ['.', '0'] else '.' :: fracDigitsOf 17 frac)

def hexDigit (n : Nat) : Char :=
  if n < 10 then Char.ofNat ('0'.toNat + n) else Char.ofNat ('a'.toNat + n - 10)

/-- serde string escaping: `"`, `\`, and the control characters. -/
def escapeChar (c : Char) : Chars :=
  if c = '"' then ['\\', '"']
  else if c = '\\' then ['\\', '\\']
  else if c = '\x08' then ['\\', 'b']
  else if c = '\x0c' then ['\\', 'f']
  else if c = '\n' then ['\\', 'n']
  else if c = '\r' then ['\\', 'r']
  else if c = '\t' then ['\\', 't']
  else if c.toNat < 0x20 then
    ['\\', 'u', '0', '0', hexDigit (c.toNat / 16), hexDigit (c.toNat % 16)]
  else [c]

def serializeString (s : Chars) : Chars :=
  '"' :: (s.flatMap escapeChar) ++ ['"']

def serializeNum : JNum → Chars
  | .int n => intToChars n
  | .float q => floatToChars q

mutual
def serializeJson : Json → Chars
  | .null => "null".data
  | .bool true => "true".data
  | .bool false => "false".data
  | .num n => serializeNum n
  | .str s => serializeString s
  | .arr items => '[' :: serializeItems items ++ [']']
  | .obj fields => '{' :: serializeMembers fields ++ ['}']

def serializeItems : JsonList → Chars
  | .nil => []
  | .cons v .nil => serializeJson v
  | .cons v (.cons w tl) => serializeJson v ++ ',' :: serializeItems (.cons w tl)

def serializeMembers : JsonFields → Chars
  | .nil => []
  | .cons k v .nil => serializeString k ++ ':' :: serializeJson v
  | .cons k v (.cons k' w tl) =>
    serializeString k ++ ':' :: serializeJson v ++ ',' :: serializeMembers (.cons k' w tl)
end

/-! ## The templater (`src/core/anything-server/src/templater/mod.rs`) -/

/-- Modelled from the spec: `ValidationFieldType` is referenced by
`templater/mod.rs` but its defining module is not under `src/`; the spec
(§4.1) fixes the declared-type set {string, number, boolean, object, array,
null, unknown}, and every variant is exercised by name in the source. -/
inductive ValidationFieldType where
  | string | number | boolean | object | array | null | unknown
  deriving DecidableEq

/-- `TemplateError { message, variable }` (the Rust field `variable` is a Lean keyword, embedded as `varName`). -/
structure TemplateError where
  message : Chars
  varName : Chars
  deriving DecidableEq

/-- The two reachable panic sites of the templater: the out-of-order slice
`&part[index_start + 1..index_end]` in `get_value_from_path`
(`templater/mod.rs:95`) and `serde_json::Number::from_f64(n).unwrap()` in
`validate_and_convert_value` (`templater/mod.rs:261`). -/
inductive PanicKind where
  | segmentSlice
  | numberFromF64Unwrap
  deriving DecidableEq

/-- Rendering either succeeds, fails with a structured `TemplateError`, or
panics. -/
inductive RenderErr where
  | template (e : TemplateError)
  | panicked (k : PanicKind)
  deriving DecidableEq

def msgTemplateNotFound : Chars := "Template not found".data
def msgUnclosed : Chars := "Unclosed template variable".data
def msgVarNotFound : Chars := "Variable not found in context".data
def msgCannotNumber (s : Chars) : Chars := "Cannot convert value to number: ".data ++ s
def msgCannotBool (s : Chars) : Chars := "Cannot convert value to boolean: ".data ++ s

/-- The `format!("Expected ..., got: {:?}", value)` messages; `{:?}` debug
formatting is abstracted by compact serialization (no claim reads messages). -/
def msgExpected (what : String) (v : Json) : Chars :=
  "Expected ".data ++ what.data ++ ", got: ".data ++ serializeJson v

/-- One segment of `get_value_from_path`'s loop body (`templater/mod.rs:91-105`):
bracket handling, or plain key descent.  A segment whose first `]` precedes its
first `[` makes the Rust slice `&part[index_start + 1..index_end]` panic. -/
def segStep (cur : Json) (part : Chars) : Except PanicKind (Option Json) :=
  match findCh part '[' with
  | some idxStart =>
    let key := part.take idxStart
    let idxEnd := (findCh part ']').getD part.length
    if idxStart + 1 > idxEnd then .error .segmentSlice
    else
      match parseUsize ((part.drop (idxStart + 1)).take (idxEnd - (idxStart + 1))) with
      | none => .ok none
      | some index =>
        match cur.getKey key with
        | none => .ok none
        | some v =>
          if v.isArr then .ok (v.getIdx index) else .ok none
  | none => .ok (cur.getKey part)

/-- `get_value_from_path` on the dot-split segment list.  The source rejoins
`parts[i + 1..]` with `.` and recurses; segments produced by `split('.')`
contain no dots, so the rejoin-then-resplit is the identity on the remaining
segment list. -/
def resolveParts : Json → List Chars → Except PanicKind (Option Json)
  | cur, [] => .ok (some cur)
  | cur, p :: rest =>
    match segStep cur p with
    | .error k => .error k
    | .ok none => .ok none
    | .ok (some next) =>
      match next with
      | .str s =>
        match parseJsonStr s with
        | some parsed =>
          match rest with
          | [] => .ok (some parsed)
          | _ => resolveParts parsed rest
        | none => resolveParts (.str s) rest
      | v => resolveParts v rest

/-- `Templater::get_value_from_path` (`templater/mod.rs:87-120`). -/
def getValueFromPath (ctx : Json) (path : Chars) : Except PanicKind (Option Json) :=
  resolveParts ctx (splitDots path)

/-- `Templater::validate_and_convert_value` (`templater/mod.rs:241-301`). -/
def validateAndConvert (v : Json) (expected : ValidationFieldType) (varName : Chars) :
    Except RenderErr Json :=
  match expected with
  | .string =>
    match v with
    | .str _ => .ok v
    | _ => .ok (.str (serializeJson v))
  | .number =>
    match v with
    | .num _ => .ok v
    | .str s =>
      match rustParseF64 s with
      | none => .error (.template ⟨msgCannotNumber s, varName⟩)
      | some fv =>
        match numberFromF64 fv with
        | some n => .ok (.num n)
        | none => .error (.panicked .numberFromF64Unwrap)
    | _ => .error (.template ⟨msgExpected "number" v, varName⟩)
  | .boolean =>
    match v with
    | .bool _ => .ok v
    | .str s =>
      match parseRustBool s with
      | none => .error (.template ⟨msgCannotBool s, varName⟩)
      | some b => .ok (.bool b)
    | _ => .error (.template ⟨msgExpected "boolean" v, varName⟩)
  | .object =>
    match v with
    | .obj _ => .ok v
    | _ => .error (.template ⟨msgExpected "object" v, varName⟩)
  | .array =>
    match v with
    | .arr _ => .ok v
    | _ => .error (.template ⟨msgExpected "array" v, varName⟩)
  | .null => .ok .null
  | .unknown => .ok v

/-- The validations map (`HashMap<String, ValidationFieldType>`; unique keys,
embedded as a first-match association list). -/
abbrev VMap := List (Chars × ValidationFieldType)

def lookupVMap : VMap → Chars → Option ValidationFieldType
  | [], _ => none
  | (k, t) :: rest, key => if k = key then some t else lookupVMap rest key

/-- Rust `variable.split('.').nth(1).unwrap_or(variable)`: the validation key is
the second dotted segment, or the whole variable when there is none. -/
def topKeyOf (varName : Chars) : Chars :=
  ((splitDots varName).get? 1).getD varName

/-- The whole-string-placeholder test of `render_value`
(`templater/mod.rs:162-163`): after trimming, the string starts with `{{` and
ends with `}}`; the entire inner text, trimmed, is the variable. -/
def wholeInner (s : Chars) : Option Chars :=
  let t := trimChars s
  if startsWith2 t '{' '{' ∧ endsWith2 t '}' '}' then
    some (trimChars ((t.drop 2).take (t.length - 4)))
  else none

/-- The per-occurrence validation step shared by both render modes
(`templater/mod.rs:208-225`): an `object` expectation only checks the shape,
anything else goes through `validate_and_convert_value`. -/
def applyValidation (valids : VMap) (topKey varName : Chars) (v : Json) :
    Except RenderErr Json :=
  match lookupVMap valids topKey with
  | some expected =>
    if expected = .object then
      match v with
      | .obj _ => .ok v
      | _ => .error (.template ⟨msgExpected "object" v, varName⟩)
    else validateAndConvert v expected varName
  | none => .ok v

/-- The interpolation loop of `render_value` (`templater/mod.rs:188-233`), as
recursion on the unscanned suffix: `acc` is the already-scanned (and already
substituted) prefix of the mutated `result` string, `rest` the part from the
scan position `start` on.  Each step consumes at least the `{{`…`}}` block, so
`rest.length + 1` fuel always suffices. -/
def interpolateGo (ctx : Json) (valids : VMap) :
    Nat → Chars → Chars → Except RenderErr Chars
  | 0, acc, rest => .ok (acc ++ rest)
  | fuel + 1, acc, rest =>
    match find2 rest '{' '{' with
    | none => .ok (acc ++ rest)
    | some openIdx =>
      match find2 (rest.drop openIdx) '}' '}' with
      | none => .error (.template ⟨msgUnclosed, acc ++ rest⟩)
      | some closeIdx =>
        let varName := trimChars ((rest.drop (openIdx + 2)).take (closeIdx - 2))
        let topKey := topKeyOf varName
        match getValueFromPath ctx varName with
        | .error k => .error (.panicked k)
        | .ok none => .error (.template ⟨msgVarNotFound, varName⟩)
        | .ok (some v) =>
          match applyValidation valids topKey varName v with
          | .error e => .error e
          | .ok v' =>
            let replacement := match v' with
              | .str s => s
              | w => serializeJson w
            interpolateGo ctx valids fuel (acc ++ rest.take openIdx ++ replacement)
              (rest.drop (openIdx + closeIdx + 2))

/-- The string case of `render_value` (`templater/mod.rs:160-236`): try the
whole-string-placeholder branch; fall through to interpolation when the test
fails or the whole-string path does not resolve. -/
def renderString (ctx : Json) (valids : VMap) (s : Chars) : Except RenderErr Json :=
  let wholeResult : Option (Except RenderErr Json) :=
    match wholeInner s with
    | none => none
    | some varName =>
      let topKey := topKeyOf varName
      match lookupVMap valids topKey with
      | some expected =>
        match getValueFromPath ctx varName with
        | .error k => some (.error (.panicked k))
        | .ok (some v) =>
          if expected = .object then
            match v with
            | .obj _ => some (.ok v)
            | _ => some (.error (.template ⟨msgExpected "object" v, varName⟩))
          else some (validateAndConvert v expected varName)
        | .ok none => none
      | none =>
        match getValueFromPath ctx varName with
        | .error k => some (.error (.panicked k))
        | .ok (some v) => some (.ok v)
        | .ok none => none
  match wholeResult with
  | some r => r
  | none => (interpolateGo ctx valids (s.length + 1) [] s).map .str

mutual
/-- `Templater::render_value` (`templater/mod.rs:139-239`). -/
def renderValue (ctx : Json) (valids : VMap) : Json → Except RenderErr Json
  | .obj fields => (renderFields ctx valids fields).map .obj
  | .arr items => (renderItems ctx valids items).map .arr
  | .str s => renderString ctx valids s
  | v => .ok v

def renderFields (ctx : Json) (valids : VMap) : JsonFields → Except RenderErr JsonFields
  | .nil => .ok .nil
  | .cons k v tl =>
    match renderValue ctx valids v with
    | .error e => .error e
    | .ok v' => (renderFields ctx valids tl).map (.cons k v')

def renderItems (ctx : Json) (valids : VMap) : JsonList → Except RenderErr JsonList
  | .nil => .ok .nil
  | .cons v tl =>
    match renderValue ctx valids v with
    | .error e => .error e
    | .ok v' => (renderItems ctx valids tl).map (.cons v')
end

/-- The scan loop of `extract_variables` on one string leaf
(`templater/mod.rs:68-81`), as recursion on the unscanned suffix; the
unclosed-variable error carries the whole original leaf. -/
def scanVarsGo (orig : Chars) : Nat → Chars → Except TemplateError (List Chars)
  | 0, _ => .ok []
  | fuel + 1, rest =>
    match find2 rest '{' '{' with
    | none => .ok []
    | some openIdx =>
      match find2 (rest.drop openIdx) '}' '}' with
      | none => .error ⟨msgUnclosed, orig⟩
      | some closeIdx =>
        let varName := trimChars ((rest.drop (openIdx + 2)).take (closeIdx - 2))
        (scanVarsGo orig fuel (rest.drop (openIdx + closeIdx + 2))).map (varName :: ·)

def scanVars (s : Chars) : Except TemplateError (List Chars) :=
  scanVarsGo s (s.length + 1) s

mutual
/-- `Templater::extract_variables` (`templater/mod.rs:55-85`): depth-first
walk collecting every `{{…}}` occurrence in order. -/
def extractVariables : Json → Except TemplateError (List Chars)
  | .str s => scanVars s
  | .obj fields => extractFromFields fields
  | .arr items => extractFromItems items
  | _ => .ok []

def extractFromFields : JsonFields → Except TemplateError (List Chars)
  | .nil => .ok []
  | .cons _ v tl =>
    match extractVariables v with
    | .error e => .error e
    | .ok l => (extractFromFields tl).map (l ++ ·)

def extractFromItems : JsonList → Except TemplateError (List Chars)
  | .nil => .ok []
  | .cons v tl =>
    match extractVariables v with
    | .error e => .error e
    | .ok l => (extractFromItems tl).map (l ++ ·)
end

/-- The `Templater` registry: a `HashMap<String, Value>` of named templates
(unique keys, embedded as an association list with insert-replaces). -/
structure Templater where
  templates : List (Chars × Json)
  deriving DecidableEq

def Templater.new : Templater := ⟨[]⟩

def lookupTemplate : List (Chars × Json) → Chars → Option Json
  | [], _ => none
  | (k, v) :: rest, key => if k = key then some v else lookupTemplate rest key

/-- `Templater::add_template` (`HashMap::insert` replaces any previous
binding). -/
def Templater.addTemplate (tp : Templater) (name : Chars) (template : Json) : Templater :=
  ⟨(name, template) :: removeKey tp.templates name⟩

/-- `Templater::get_template_variables` (`templater/mod.rs:40-53`). -/
def Templater.getTemplateVariables (tp : Templater) (name : Chars) :
    Except TemplateError (List Chars) :=
  match lookupTemplate tp.templates name with
  | none => .error ⟨msgTemplateNotFound, name⟩
  | some t => extractVariables t

/-- `Templater::render` (`templater/mod.rs:122-137`). -/
def Templater.render (tp : Templater) (name : Chars) (ctx : Json) (valids : VMap) :
    Except RenderErr Json :=
  match lookupTemplate tp.templates name with
  | none => .error (.template ⟨msgTemplateNotFound, name⟩)
  | some t => renderValue ctx valids t

/-! ## The processor (`src/core/anything-server/src/new_processor/processor.rs`)

The dispatcher loop and each spawned worker are embedded as pure state
transformers over `ProcState`.  Identifiers (UUIDs, action id strings) are
abstracted to `Nat`; external collaborators — the database
(`get_workflow_definition`, `create_task`) and the plugin runner
(`execute_task`) — are oracle functions in a `WEnv` record, indexed by call
count.  Asynchronous interleaving is not modelled: the claims settled here
(admission, task ordering, cleanup on exit paths) are control-flow properties
of a single worker, and fire-and-forget DB status writes do not touch
`ProcState`. -/

/-- `task_status` / `flow_session_status` / `trigger_session_status` values. -/
inductive TaskStatus where
  | pending | running | completed | failed
  deriving DecidableEq

/-- `ActionType` (`types/action_types.rs:29-38`). -/
inductive ActionTy where
  | trigger | action | loop | decision | filter | response | input | output
  deriving DecidableEq

/-- The fields of an `Action` that the processor reads (`action_id`,
`type`; `label`, `plugin_id` and the template payloads do not influence any
claim and are omitted). -/
structure ActionM where
  action_id : Nat
  ty : ActionTy
  deriving DecidableEq

/-- A workflow version definition: `actions` plus directed `edges`
(source, target). -/
structure WorkflowM where
  published : Bool
  actions : List ActionM
  edges : List (Nat × Nat)
  deriving DecidableEq

/-- The fields of a created `Task` row that the claims observe. -/
structure TaskM where
  task_id : Nat
  action_id : Nat
  processing_order : Int
  task_status : TaskStatus
  result : Option Int
  deriving DecidableEq

/-- The fields of `CreateTaskInput` that the claims observe
(`processing_order`, `task_status`, `action_id`, `type`). -/
structure CreateTaskInputM where
  processing_order : Int
  task_status : TaskStatus
  action_id : Nat
  ty : ActionTy
  deriving DecidableEq

/-- `ProcessorMessage` (`processor.rs:20-26`); `workflow_id` / `version_id`
only parameterize the DB fetch, which the environment oracle answers. -/
structure MessageM where
  flow_session_id : Nat
  trigger_task : Option CreateTaskInputM
  deriving DecidableEq

/-- Modelled from the spec: `FlowSessionData` and the flow-session cache
(`new_processor/flow_session_cache.rs`) are not under `src/`; §4.3 fixes the
shape `{ workflow, tasks, flow_session_id, … }` keyed by `flow_session_id` and
the operations `get` / `set` / `add_task` / `update_task` / `invalidate`
(`add_task` / `update_task` succeed only when the session exists). -/
structure SessionData where
  workflow : Option WorkflowM
  tasks : List (Nat × TaskM)
  deriving DecidableEq

abbrev CacheM := List (Nat × SessionData)

def cacheGet : CacheM → Nat → Option SessionData
  | [], _ => none
  | (k, v) :: rest, key => if k = key then some v else cacheGet rest key

/-- Modelled from the spec: `set` stores the session data under the key
(insert-or-replace). -/
def cacheSet (c : CacheM) (key : Nat) (sd : SessionData) : CacheM :=
  (key, sd) :: removeKey c key

/-- Modelled from the spec: `add_task` inserts a task into an existing
session's task map (keyed by `task_id`) and reports whether the session
existed. -/
def cacheAddTask (c : CacheM) (key : Nat) (t : TaskM) : CacheM :=
  match cacheGet c key with
  | none => c
  | some sd => cacheSet c key { sd with tasks := (t.task_id, t) :: removeKey sd.tasks t.task_id }

/-- Modelled from the spec: `update_task` replaces the stored task with the
same `task_id`, when the session exists. -/
def cacheUpdateTask (c : CacheM) (key : Nat) (t : TaskM) : CacheM :=
  cacheAddTask c key t

/-- Modelled from the spec: `invalidate` removes the session entry. -/
def cacheInvalidate (c : CacheM) (key : Nat) : CacheM :=
  removeKey c key

/-- Shared processor state: the `active_flow_sessions` set, the flow-session
cache, and the free-permit count of the `MAX_CONCURRENT_WORKFLOWS`
semaphore. -/
structure ProcState where
  active : List Nat
  cache : CacheM
  sem : Nat
  deriving DecidableEq

/-- The worker's external collaborators: the `get_workflow_definition` DB
fetch, the success of each `create_task` call (indexed by call count; the
model allocates `task_id`s sequentially), and each `execute_task` outcome
(indexed by call count; `Ok(json)`/`Err(json)` payloads abstracted to `Int`). -/
structure WEnv where
  dbWorkflow : Option WorkflowM
  createOk : Nat → Bool
  plugin : Nat → Except Int Int

/-- Modelled from the spec: `get_trigger_node` (`new_processor/parsing_utils.rs`,
not under `src/`) looks up the unique action of type `trigger` in the flow
definition; the processor immediately `unwrap`s its result
(`processor.rs:169`). -/
def getTriggerNode (w : WorkflowM) : Option ActionM :=
  w.actions.find? (fun a => a.ty = .trigger)

/-- Graph construction (`processor.rs:228-234`): fold the edge list into an
adjacency list, pushing each target onto its source's entry in edge order. -/
def pushEdge : List (Nat × List Nat) → Nat → Nat → List (Nat × List Nat)
  | [], s, t => [(s, [t])]
  | (k, ts) :: rest, s, t =>
    if k = s then (k, ts ++ [t]) :: rest else (k, ts) :: pushEdge rest s t

def buildGraph (edges : List (Nat × Nat)) : List (Nat × List Nat) :=
  edges.foldl (fun g e => pushEdge g e.1 e.2) []

def graphGet : List (Nat × List Nat) → Nat → Option (List Nat)
  | [], _ => none
  | (k, ts) :: rest, key => if k = key then some ts else graphGet rest key

/-- Whether some task of the session already carries the action id
(`processor.rs:346-350`). -/
def sessionHasAction (sd : SessionData) (aid : Nat) : Bool :=
  sd.tasks.any (fun kv => kv.2.action_id = aid)

/-- The neighbor scan of the next-action selection (`processor.rs:336-356`):
for each neighbor id in adjacency order, look up its action definition
(neighbors without one are skipped), read the session from the cache (a
missing session skips the neighbor), and take the first neighbor whose
`action_id` no session task carries. -/
def scanNeighbors (actions : List ActionM) (cache : CacheM) (fsid : Nat) :
    List Nat → Option ActionM
  | [] => none
  | n :: rest =>
    match actions.find? (fun a => a.action_id = n) with
    | none => scanNeighbors actions cache fsid rest
    | some a =>
      match cacheGet cache fsid with
      | none => scanNeighbors actions cache fsid rest
      | some sd =>
        if sessionHasAction sd a.action_id then scanNeighbors actions cache fsid rest
        else some a

/-- `next_action` selection (`processor.rs:332-360`): adjacency lookup, then
the neighbor scan; no adjacency entry means the workflow is complete. -/
def nextActionSel (graph : List (Nat × List Nat)) (actions : List ActionM)
    (cache : CacheM) (fsid : Nat) (aid : Nat) : Option ActionM :=
  match graphGet graph aid with
  | none => none
  | some neighbors => scanNeighbors actions cache fsid neighbors

/-- How a worker terminated. -/
inductive ExitKind where
  | loadError
  | panickedNoTrigger
  | finished
  | outOfFuel
  deriving DecidableEq

/-- A finished worker: final shared state, the successfully created task
inputs in creation order, and the exit path taken. -/
structure WorkerOut where
  state : ProcState
  created : List CreateTaskInputM
  exit : ExitKind
  deriving DecidableEq

/-- `mk` a `Task` row from its creation input (the DB allocates `task_id`). -/
def mkTask (tid : Nat) (inp : CreateTaskInputM) : TaskM :=
  { task_id := tid, action_id := inp.action_id, processing_order := inp.processing_order,
    task_status := inp.task_status, result := none }

/-- The synthesized trigger task (`processor.rs:174-202`):
`processing_order = 0`, status `running`, the trigger action's id and type. -/
def synthTrigger (trig : ActionM) : CreateTaskInputM :=
  { processing_order := 0, task_status := .running, action_id := trig.action_id, ty := .trigger }

/-- The task input built for the selected next action (`processor.rs:364-391`):
the running `processing_order` counter, status `running`, the action's id and
type. -/
def nextTaskInput (order : Int) (a : ActionM) : CreateTaskInputM :=
  { processing_order := order, task_status := .running, action_id := a.action_id, ty := a.ty }

/-- The task loop (`processor.rs:239-433`).  `order` is the `processing_order`
counter (initialized to 1 at `processor.rs:236`), `callIdx` counts
`execute_task` calls, `createIdx` counts `create_task` calls, `tid` is the
next allocated task id, and `createdRev` accumulates created task inputs in
reverse.  Returns the state, the accumulator, and whether the loop exited on
its own (as opposed to fuel exhaustion — not a code path). -/
def workerLoop (env : WEnv) (fsid : Nat) (wf : WorkflowM) (graph : List (Nat × List Nat)) :
    Nat → TaskM → Int → Nat → Nat → Nat → ProcState → List CreateTaskInputM →
    ProcState × List CreateTaskInputM × Bool
  | 0, _, _, _, _, _, st, createdRev => (st, createdRev, false)
  | fuel + 1, task, order, callIdx, createIdx, tid, st, createdRev =>
    match env.plugin callIdx with
    | .error e =>
      -- plugin failure: async DB writes, then the cache update to failed, then break
      let st := { st with
        cache := cacheUpdateTask st.cache fsid
          { task with task_status := .failed, result := some e } }
      (st, createdRev, true)
    | .ok v =>
      -- success: async DB write, cache update to completed, then next-action scan
      let st := { st with
        cache := cacheUpdateTask st.cache fsid
          { task with task_status := .completed, result := some v } }
      match nextActionSel graph wf.actions st.cache fsid task.action_id with
      | some a =>
        let inp := nextTaskInput order a
        if env.createOk createIdx then
          let newTask := mkTask tid inp
          -- cache insert via get / mutate / set (`processor.rs:396-404`)
          let st := { st with
            cache :=
              match cacheGet st.cache fsid with
              | some sd =>
                cacheSet st.cache fsid
                  { sd with tasks := (newTask.task_id, newTask) ::
                      removeKey sd.tasks newTask.task_id }
              | none => st.cache }
          workerLoop env fsid wf graph fuel newTask (order + 1) (callIdx + 1)
            (createIdx + 1) (tid + 1) st (inp :: createdRev)
        else (st, createdRev, true)
      | none =>
        -- workflow complete: async flow-session status write only
        (st, createdRev, true)

/-- End-of-worker cleanup (`processor.rs:440-454`): invalidate the cache
entry, remove the session from `active_flow_sessions`, drop the permit. -/
def workerCleanup (st : ProcState) (fsid : Nat) : ProcState :=
  { active := st.active.erase fsid,
    cache := cacheInvalidate st.cache fsid,
    sem := st.sem + 1 }

/-- The body spawned per message (`processor.rs:78-455`): cache-then-DB
workflow load (an `Err` from the DB returns early — RAII releases the permit,
but cache invalidation and `active_sessions` removal are skipped), the
`get_trigger_node(..).unwrap()` (a panic unwinds: the permit is dropped, the
explicit cleanup never runs), initial task creation, the task loop, and the
cleanup block. -/
def workerBody (fuel : Nat) (env : WEnv) (msg : MessageM) (wf : WorkflowM)
    (st1 : ProcState) : WorkerOut :=
  let fsid := msg.flow_session_id
  match getTriggerNode wf with
  | none => ⟨{ st1 with sem := st1.sem + 1 }, [], .panickedNoTrigger⟩
  | some trig =>
    let inp0 := msg.trigger_task.getD (synthTrigger trig)
    if env.createOk 0 then
      let t0 := mkTask 0 inp0
      let st2 := { st1 with cache := cacheAddTask st1.cache fsid t0 }
      let graph := buildGraph wf.edges
      let (st3, createdRev, done) :=
        workerLoop env fsid wf graph fuel t0 1 0 1 1 st2 [inp0]
      if done then ⟨workerCleanup st3 fsid, createdRev.reverse, .finished⟩
      else ⟨st3, createdRev.reverse, .outOfFuel⟩
    else
      -- create_task failed: current_task = None, the loop never runs, cleanup runs
      ⟨workerCleanup st1 fsid, [], .finished⟩

/-- A spawned worker (`processor.rs:78-455`), starting from the cache-then-DB
load phase.  `st0.sem` does not include the permit the dispatcher moved into
the worker; every exit path returns it (RAII). -/
def workerRun (fuel : Nat) (env : WEnv) (msg : MessageM) (st0 : ProcState) : WorkerOut :=
  let fsid := msg.flow_session_id
  match (cacheGet st0.cache fsid).bind (fun sd => sd.workflow) with
  | some w => workerBody fuel env msg w st0
  | none =>
    match env.dbWorkflow with
    | none => ⟨{ st0 with sem := st0.sem + 1 }, [], .loadError⟩
    | some w =>
      let st1 :=
        if (cacheGet st0.cache fsid).isNone then
          { st0 with cache := cacheSet st0.cache fsid ⟨some w, []⟩ }
        else st0
      workerBody fuel env msg w st1

/-- Dispatcher admission (`processor.rs:49-74`): take the `active_sessions`
lock and insert; a duplicate is skipped before any permit acquisition or
spawn; otherwise one semaphore permit is taken (acquisition suspends at zero;
the model is read under `sem > 0`) and a worker is spawned for the message. -/
def admitStep (st : ProcState) (m : MessageM) : ProcState × Bool :=
  if m.flow_session_id ∈ st.active then (st, false)
  else ({ st with active := m.flow_session_id :: st.active, sem := st.sem - 1 }, true)

/-- The dispatcher over a message sequence, collecting the spawned messages
in order (workers run concurrently with later admissions; admission touches
only the `active` set and the semaphore). -/
def admitAll (st : ProcState) : List MessageM → ProcState × List MessageM
  | [] => (st, [])
  | m :: rest =>
    let (st', spawned) := admitStep st m
    let (st'', tl) := admitAll st' rest
    (st'', if spawned then m :: tl else tl)

/-! ## The bundler (`src/core/anything-server/src/bundler/bundler.rs`) -/

/-- `fetch_completed_cached_tasks` (`bundler.rs:141-158`): the session's task
map values filtered to `task_status == Completed`; an absent session yields
the empty list.  (`HashMap::values()` iteration order is embedded as the
association-list order; every claim statement is order-independent.) -/
def fetchCompletedCachedTasks (cache : CacheM) (fsid : Nat) : List TaskM :=
  match cacheGet cache fsid with
  | some sd => (sd.tasks.map (fun kv => kv.2)).filter (fun t => t.task_status = .completed)
  | none => []

def upsertTaskByAction (m : List (Nat × TaskM)) (t : TaskM) : List (Nat × TaskM) :=
  (t.action_id, t) :: removeKey m t.action_id

/-- The `actions` namespace of the render context (`bundler.rs:111-116`):
`action_id → serialized prior task` over the completed cached tasks
(serialization of a task abstracted by the task record itself). -/
def actionsNamespace (cache : CacheM) (fsid : Nat) : List (Nat × TaskM) :=
  (fetchCompletedCachedTasks cache fsid).foldl upsertTaskByAction []

def lookupByAction : List (Nat × TaskM) → Nat → Option TaskM
  | [], _ => none
  | (k, t) :: rest, key => if k = key then some t else lookupByAction rest key

/-! ## Specification-side definitions

The following definitions transcribe the wording of the specification claims,
independently of the source embedding above; the claim theorems relate the
two. -/

/-- The two-character pattern `a b` occurs at index `i`. -/
def pat2At (s : Chars) (i : Nat) (a b : Char) : Prop :=
  s[i]? = some a ∧ s[i + 1]? = some b

/-- The two-character pattern occurs somewhere. -/
def hasPat2 (s : Chars) (a b : Char) : Prop := ∃ i, pat2At s i a b

/-- Boolean adjacency-pair test (for concrete refutations). -/
def hasAdj : Chars → Char → Char → Bool
  | x :: y :: rest, a, b => (decide (x = a) && decide (y = b)) || hasAdj (y :: rest) a b
  | _, _, _ => false

/-- The claim's notion of a string that is, after trimming, exactly one
`{{path}}` placeholder: the trimmed string is `{{` ++ path ++ `}}` and the
path contains no placeholder delimiter pair. -/
def isWholePlaceholderB (s : Chars) : Bool :=
  let t := trimChars s
  startsWith2 t '{' '{' && endsWith2 t '}' '}' &&
    (let p := (t.drop 2).take (t.length - 4)
     !hasAdj p '{' '{' && !hasAdj p '}' '}')

/-- `ScansTo s l`: the claim's description of lexical extraction on one
string — `l` lists, in occurrence order and including duplicates, the trimmed
text standing between each `{{` and the first subsequent `}}`.  The side
conditions pin the occurrences as the scanner's: no earlier `{{` (within
`before`, including the junction), and no earlier `}}` after the `{{` (within
`inner`, including the junction). -/
inductive ScansTo : Chars → List Chars → Prop
  | done (s : Chars) (h : ¬ hasPat2 s '{' '{') : ScansTo s []
  | more (before inner rest : Chars) (tail : List Chars)
      (hb : ¬ hasPat2 (before ++ ['{']) '{' '{')
      (hi : ¬ hasPat2 (inner ++ ['}']) '}' '}')
      (ht : ScansTo rest tail) :
      ScansTo (before ++ '{' :: '{' :: inner ++ '}' :: '}' :: rest)
        (trimChars inner :: tail)

/-- The claim's unclosed-placeholder condition on one string: some `{{` has
no subsequent `}}`. -/
def specUnclosed (s : Chars) : Prop :=
  ∃ u v, s = u ++ '{' :: '{' :: v ∧ ¬ hasPat2 v '}' '}'

mutual
/-- The claim's description of `variables(t)`: depth-first over object
values, array elements, and string leaves, concatenating per-leaf scans. -/
def jExtracts : Json → List Chars → Prop
  | .str s, l => ScansTo s l
  | .obj fields, l => fExtracts fields l
  | .arr items, l => iExtracts items l
  | .null, l => l = []
  | .bool _, l => l = []
  | .num _, l => l = []

def fExtracts : JsonFields → List Chars → Prop
  | .nil, l => l = []
  | .cons _ v tl, l => ∃ l1 l2, l = l1 ++ l2 ∧ jExtracts v l1 ∧ fExtracts tl l2

def iExtracts : JsonList → List Chars → Prop
  | .nil, l => l = []
  | .cons v tl, l => ∃ l1 l2, l = l1 ++ l2 ∧ jExtracts v l1 ∧ iExtracts tl l2
end

mutual
/-- Some string leaf of the template contains `{{` with no closing `}}`. -/
def jUnclosed : Json → Prop
  | .str s => specUnclosed s
  | .obj fields => fUnclosed fields
  | .arr items => iUnclosed items
  | .null => False
  | .bool _ => False
  | .num _ => False

def fUnclosed : JsonFields → Prop
  | .nil => False
  | .cons _ v tl => jUnclosed v ∨ fUnclosed tl

def iUnclosed : JsonList → Prop
  | .nil => False
  | .cons v tl => jUnclosed v ∨ iUnclosed tl
end

/-- `[k, k + 1, …, k + m - 1]` as integers (the claim's strictly increasing
order sequence). -/
def ordersFrom (k : Int) : Nat → List Int
  | 0 => []
  | m + 1 => k :: ordersFrom (k + 1) m

/-! ## Concrete inputs for counterexamples and witnesses -/

/-- `{{` -/
def obr : Chars := ['{', '{']
/-- `}}` -/
def cbr : Chars := ['}', '}']

def jint (n : Int) : Json := .num (.int n)

/-- The string leaf `{{a}} {{b}}`. -/
def leafTwo : Chars := obr ++ 'a' :: cbr ++ ' ' :: obr ++ 'b' :: cbr

/-- The context key `a}} {{b` (the entire inner text of `leafTwo`). -/
def oddKey : Chars := 'a' :: cbr ++ ' ' :: obr ++ ['b']

/-- Context carrying the odd key alongside plain `a` and `b`. -/
def ctxOdd : Json :=
  .obj (.cons oddKey (jint 5) (.cons ['a'] (jint 1) (.cons ['b'] (jint 2) .nil)))

/-- The string leaf `{{variables.n}}`. -/
def leafVarN : Chars := obr ++ "variables.n".data ++ cbr

/-- Context `{"variables": {"n": "NaN"}}`. -/
def ctxNaN : Json :=
  .obj (.cons "variables".data (.obj (.cons ['n'] (.str "NaN".data) .nil)) .nil)

/-- The template `{"g": "{{variables.n}}"}`. -/
def tmplNaN : Json := .obj (.cons ['g'] (.str leafVarN) .nil)

/-- Workflow: trigger action 0 wired to plain action 1. -/
def wfTwo : WorkflowM := ⟨true, [⟨0, .trigger⟩, ⟨1, .action⟩], [(0, 1)]⟩

/-- Environment where everything succeeds. -/
def envAllOk : WEnv := ⟨some wfTwo, fun _ => true, fun _ => .ok 7⟩

/-- Environment where the workflow-definition DB fetch fails. -/
def envDbErr : WEnv := ⟨none, fun _ => true, fun _ => .ok 7⟩

/-- A workflow with no trigger-typed action. -/
def wfNoTrigger : WorkflowM := ⟨true, [⟨1, .action⟩], []⟩

def envNoTrigger : WEnv := ⟨some wfNoTrigger, fun _ => true, fun _ => .ok 7⟩

/-- Post-admission state for session 9: active, cache empty, 4 free permits. -/
def stNine : ProcState := ⟨[9], [], 4⟩

def msgNine : MessageM := ⟨9, none⟩

/-- A message carrying a pre-built trigger task with `processing_order = 5`. -/
def msgPrebuilt : MessageM := ⟨9, some ⟨5, .running, 0, .trigger⟩⟩

/-- The string leaf `Hello {{a}} {{ b.c }}`. -/
def leafHello : Chars :=
  "Hello ".data ++ obr ++ "a".data ++ cbr ++ " ".data ++ obr ++ " b.c ".data ++ cbr

/-- The template `{"g": "Hello {{a}} {{ b.c }}"}`. -/
def tmplHello : Json := .obj (.cons ['g'] (.str leafHello) .nil)

/-- A registry carrying `tmplHello` under the name `t`. -/
def tmplrHello : Templater := Templater.new.addTemplate "t".data tmplHello

/-- Context `{"variables": {"n": 42}}`. -/
def ctxVars42 : Json :=
  .obj (.cons "variables".data (.obj (.cons ['n'] (jint 42) .nil)) .nil)

/-- Context `{"key": [10, 20, 30]}`. -/
def ctxKeyArr : Json :=
  .obj (.cons "key".data (.arr (.cons (jint 10) (.cons (jint 20) (.cons (jint 30) .nil)))) .nil)

/-- A completed task row for action 0 and a running one for action 1. -/
def taskDoneA0 : TaskM := ⟨0, 0, 0, .completed, some 7⟩

def taskRunA1 : TaskM := ⟨1, 1, 1, .running, none⟩

/-- Session data holding one completed and one running task of `wfTwo`. -/
def sdTwo : SessionData := ⟨some wfTwo, [(0, taskDoneA0), (1, taskRunA1)]⟩

/-- A cache holding `sdTwo` under session 9. -/
def cacheTwo : CacheM := [(9, sdTwo)]

/-! ## Helper lemmas -/

theorem cacheGet_invalidate (c : CacheM) (k : Nat) :
    cacheGet (cacheInvalidate c k) k = none := by
  induction c with
  | nil => rfl
  | cons kv rest ih =>
    obtain ⟨k0, sd⟩ := kv
    by_cases h : k0 = k
    · simpa [cacheInvalidate, removeKey, h] using by simpa [cacheInvalidate] using ih
    · simpa [cacheInvalidate, removeKey, cacheGet, h] using by simpa [cacheInvalidate] using ih

theorem cacheGet_set_self (c : CacheM) (k : Nat) (sd : SessionData) :
    cacheGet (cacheSet c k sd) k = some sd := by
  simp [cacheSet, cacheGet]

/-- The task loop only mutates the cache: the `active` set and the free
permit count pass through unchanged. -/
theorem workerLoop_keeps (env : WEnv) (fsid : Nat) (wf : WorkflowM)
    (graph : List (Nat × List Nat)) :
    ∀ (fuel : Nat) (task : TaskM) (order : Int) (ci cr tid : Nat) (st : ProcState)
      (acc : List CreateTaskInputM),
      (workerLoop env fsid wf graph fuel task order ci cr tid st acc).1.active = st.active ∧
      (workerLoop env fsid wf graph fuel task order ci cr tid st acc).1.sem = st.sem := by
  intro fuel
  induction fuel with
  | zero => intro task order ci cr tid st acc; simp [workerLoop]
  | succ n ih =>
    intro task order ci cr tid st acc
    simp only [workerLoop]
    split
    · exact ⟨rfl, rfl⟩
    · split
      · split
        · exact ih _ _ _ _ _ _ _
        · exact ⟨rfl, rfl⟩
      · exact ⟨rfl, rfl⟩

/-- The orders of the loop's created tasks: a consecutive run starting at the
counter, prepended (reversed) onto the accumulator. -/
theorem workerLoop_orders (env : WEnv) (fsid : Nat) (wf : WorkflowM)
    (graph : List (Nat × List Nat)) :
    ∀ (fuel : Nat) (task : TaskM) (order : Int) (ci cr tid : Nat) (st : ProcState)
      (acc : List CreateTaskInputM),
      ∃ m, (workerLoop env fsid wf graph fuel task order ci cr tid st acc).2.1.map
          (fun i => i.processing_order) =
        (ordersFrom order m).reverse ++ acc.map (fun i => i.processing_order) := by
  intro fuel
  induction fuel with
  | zero => intro task order ci cr tid st acc; exact ⟨0, by simp [workerLoop, ordersFrom]⟩
  | succ n ih =>
    intro task order ci cr tid st acc
    simp only [workerLoop]
    split
    · exact ⟨0, by simp [ordersFrom]⟩
    · split
      · split
        · obtain ⟨m, hm⟩ := ih _ (order + 1) _ _ _ _ _
          exact ⟨m + 1, by simpa [ordersFrom, nextTaskInput] using hm⟩
        · exact ⟨0, by simp [ordersFrom]⟩
      · exact ⟨0, by simp [ordersFrom]⟩

theorem ordersFrom_head (k : Int) (m : Nat) :
    (ordersFrom k m).head? = if m = 0 then none else some k := by
  cases m <;> simp [ordersFrom]

theorem chain'_ordersFrom (m : Nat) : ∀ (k : Int), List.Chain' (· < ·) (ordersFrom k m) := by
  induction m with
  | zero => intro k; simp [ordersFrom]
  | succ n ih =>
    intro k
    rw [ordersFrom, List.chain'_cons']
    refine ⟨?_, ih (k + 1)⟩
    intro b hb
    rw [ordersFrom_head] at hb
    split at hb
    · simp at hb
    · simp only [Option.mem_def, Option.some.injEq] at hb
      omega

theorem workerLoop_active (env : WEnv) (fsid : Nat) (wf : WorkflowM)
    (graph : List (Nat × List Nat)) (fuel : Nat) (task : TaskM) (order : Int)
    (ci cr tid : Nat) (st : ProcState) (acc : List CreateTaskInputM) :
    (workerLoop env fsid wf graph fuel task order ci cr tid st acc).1.active = st.active :=
  (workerLoop_keeps env fsid wf graph fuel task order ci cr tid st acc).1

theorem workerLoop_sem (env : WEnv) (fsid : Nat) (wf : WorkflowM)
    (graph : List (Nat × List Nat)) (fuel : Nat) (task : TaskM) (order : Int)
    (ci cr tid : Nat) (st : ProcState) (acc : List CreateTaskInputM) :
    (workerLoop env fsid wf graph fuel task order ci cr tid st acc).1.sem = st.sem :=
  (workerLoop_keeps env fsid wf graph fuel task order ci cr tid st acc).2

/-- Every path through `workerBody` other than the task-loop cleanup is either
the panic or the cleanup after a failed initial create; `loadError` never
arises in the body, and the `finished` exit always runs the cleanup block. -/
theorem workerBody_finished (fuel : Nat) (env : WEnv) (msg : MessageM) (wf : WorkflowM)
    (st1 : ProcState) :
    ((workerBody fuel env msg wf st1).exit = .finished →
      (workerBody fuel env msg wf st1).state.active = st1.active.erase msg.flow_session_id ∧
      cacheGet (workerBody fuel env msg wf st1).state.cache msg.flow_session_id = none ∧
      (workerBody fuel env msg wf st1).state.sem = st1.sem + 1) ∧
    (workerBody fuel env msg wf st1).exit ≠ .loadError := by
  simp only [workerBody]
  split
  · exact ⟨fun h => by simp at h, by simp⟩
  · split
    · split
      · refine ⟨fun _ => ⟨?_, ?_, ?_⟩, by simp⟩
        · simp [workerCleanup, workerLoop_active]
        · simp [workerCleanup, cacheGet_invalidate]
        · simp [workerCleanup, workerLoop_sem]
      · exact ⟨fun h => by simp at h, by simp⟩
    · exact ⟨fun _ => ⟨rfl, by simp [workerCleanup, cacheGet_invalidate], rfl⟩, by simp⟩

/-- C2 (amended), body: on the `finished` exit (normal completion, plugin
failure, and failed task creation) all three cleanups run; on the `loadError`
early exit only the permit returns. -/
theorem C2_cleanup (fuel : Nat) (env : WEnv) (msg : MessageM) (st : ProcState) :
    ((workerRun fuel env msg st).exit = .finished →
      (workerRun fuel env msg st).state.active = st.active.erase msg.flow_session_id ∧
      cacheGet (workerRun fuel env msg st).state.cache msg.flow_session_id = none ∧
      (workerRun fuel env msg st).state.sem = st.sem + 1) ∧
    ((workerRun fuel env msg st).exit = .loadError →
      (workerRun fuel env msg st).state = { st with sem := st.sem + 1 }) := by
  simp only [workerRun]
  split
  · exact ⟨(workerBody_finished fuel env msg _ st).1,
      fun h => absurd h (workerBody_finished fuel env msg _ st).2⟩
  · split
    · exact ⟨fun h => by simp at h, fun _ => rfl⟩
    · split
      · exact ⟨(workerBody_finished fuel env msg _ _).1,
          fun h => absurd h (workerBody_finished fuel env msg _ _).2⟩
      · exact ⟨(workerBody_finished fuel env msg _ st).1,
          fun h => absurd h (workerBody_finished fuel env msg _ st).2⟩

/-- With a synthesized trigger task, the worker's created orders are an
initial segment `0, 1, 2, …`. -/
theorem workerBody_orders (fuel : Nat) (env : WEnv) (msg : MessageM) (wf : WorkflowM)
    (st1 : ProcState) (h : msg.trigger_task = none) :
    ∃ m, (workerBody fuel env msg wf st1).created.map (fun i => i.processing_order) =
      ordersFrom 0 m := by
  simp only [workerBody]
  split
  · exact ⟨0, by simp [ordersFrom]⟩
  · split
    · obtain ⟨m, hm⟩ := workerLoop_orders env msg.flow_session_id wf (buildGraph wf.edges)
        fuel (mkTask 0 (msg.trigger_task.getD (synthTrigger _))) 1 0 1 1
        { active := st1.active,
          cache := cacheAddTask st1.cache msg.flow_session_id
            (mkTask 0 (msg.trigger_task.getD (synthTrigger _))),
          sem := st1.sem }
        [msg.trigger_task.getD (synthTrigger _)]
      refine ⟨m + 1, ?_⟩
      split
      all_goals
        simp only [WorkerOut.mk.injEq]
        rw [List.map_reverse, hm, h]
        simp [ordersFrom, synthTrigger, List.reverse_append]
    · exact ⟨0, by simp [ordersFrom]⟩

theorem workerRun_orders (fuel : Nat) (env : WEnv) (msg : MessageM) (st : ProcState)
    (h : msg.trigger_task = none) :
    ∃ m, (workerRun fuel env msg st).created.map (fun i => i.processing_order) =
      ordersFrom 0 m := by
  simp only [workerRun]
  split
  · exact workerBody_orders fuel env msg _ st h
  · split
    · exact ⟨0, by simp [ordersFrom]⟩
    · split
      · exact workerBody_orders fuel env msg _ _ h
      · exact workerBody_orders fuel env msg _ st h

/-! ## Claim theorems -/

/-- C2 (counterexample): on the early exit taken when the workflow definition
cannot be loaded from cache or DB, the worker leaves `flow_session_id` in the
`active_sessions` set (and skips cache invalidation), contradicting the claim
that every exit path removes it. -/
theorem C2_counterexample :
    (workerRun 5 envDbErr msgNine stNine).exit = .loadError ∧
    (workerRun 5 envDbErr msgNine stNine).state.active = [9] ∧
    msgNine.flow_session_id ∈ (workerRun 5 envDbErr msgNine stNine).state.active := by
  decide

/-- C2 (witness): a concrete completed run in which all three cleanups are
observed. -/
theorem C2_witness :
    (workerRun 10 envAllOk msgNine stNine).state.active = ([9] : List Nat).erase 9 ∧
    cacheGet (workerRun 10 envAllOk msgNine stNine).state.cache 9 = none ∧
    (workerRun 10 envAllOk msgNine stNine).state.sem = 4 + 1 :=
  (C2_cleanup 10 envAllOk msgNine stNine).1 (by decide)

/-- C3: a `ProcessorMessage` whose `flow_session_id` is already in the
`active_sessions` set is discarded by the dispatcher with no state change,
and two back-to-back messages with the same fresh `flow_session_id` spawn
exactly one worker (for the first message), creating nothing for the second. -/
theorem C3_duplicate_admission (st st2 : ProcState) (m m1 m2 : MessageM) :
    (m.flow_session_id ∈ st.active → admitStep st m = (st, false)) ∧
    (m1.flow_session_id ∉ st2.active → m2.flow_session_id = m1.flow_session_id →
      (admitAll st2 [m1, m2]).2 = [m1] ∧
      (admitAll st2 [m1, m2]).1.cache = st2.cache) := by
  constructor
  · intro h
    simp [admitStep, h]
  · intro h1 h2
    simp [admitAll, admitStep, h1, h2]

/-- C3 (witness): concrete duplicate delivery. -/
theorem C3_witness :
    (admitStep ⟨[3], [], 4⟩ ⟨3, none⟩ = (⟨[3], [], 4⟩, false)) ∧
    (admitAll ⟨[], [], 4⟩ [⟨3, none⟩, ⟨3, none⟩]).2 = [⟨3, none⟩] :=
  ⟨(C3_duplicate_admission ⟨[3], [], 4⟩ ⟨[], [], 4⟩ ⟨3, none⟩ ⟨3, none⟩ ⟨3, none⟩).1
      (by decide),
    ((C3_duplicate_admission ⟨[3], [], 4⟩ ⟨[], [], 4⟩ ⟨3, none⟩ ⟨3, none⟩ ⟨3, none⟩).2
      (by decide) rfl).1⟩

/-- C5 (counterexample): a `ProcessorMessage` supplying a pre-built
`trigger_task` with `processing_order = 5` is used verbatim, after which the
loop counter still starts at 1 — the created orders are `[5, 1]`: not
strictly increasing, and the initial trigger task does not have order 0. -/
theorem C5_counterexample :
    (workerRun 10 envAllOk msgPrebuilt stNine).created.map (fun i => i.processing_order)
        = [5, 1] ∧
    ¬ List.Chain' (· < ·)
        ((workerRun 10 envAllOk msgPrebuilt stNine).created.map (fun i => i.processing_order)) ∧
    ((workerRun 10 envAllOk msgPrebuilt stNine).created.head?.map
        (fun i => i.processing_order)) = some 5 := by
  refine ⟨by decide, ?_, by decide⟩
  intro h
  rw [show (workerRun 10 envAllOk msgPrebuilt stNine).created.map
      (fun i => i.processing_order) = [5, 1] from by decide] at h
  simp [List.chain'_cons] at h

/-- C5 (amended): when the worker synthesizes the trigger task (no pre-built
`trigger_task` in the message), the created tasks' `processing_order`s are
`0, 1, 2, …` — strictly increasing with the trigger task at order 0; a
pre-built `trigger_task` is used verbatim, so its order is whatever the
message supplied. -/
theorem C5_processing_orders (fuel : Nat) (env : WEnv) (msg : MessageM) (st : ProcState)
    (h : msg.trigger_task = none) :
    List.Chain' (· < ·)
      ((workerRun fuel env msg st).created.map (fun i => i.processing_order)) ∧
    (∀ t0 ∈ ((workerRun fuel env msg st).created.head?), t0.processing_order = 0) := by
  obtain ⟨m, hm⟩ := workerRun_orders fuel env msg st h
  constructor
  · exact hm ▸ chain'_ordersFrom m 0
  · intro t0 ht0
    cases hc : (workerRun fuel env msg st).created with
    | nil => simp [hc] at ht0
    | cons a l =>
      rw [hc] at hm ht0
      cases m with
      | zero => simp [ordersFrom] at hm
      | succ n =>
        simp only [List.map_cons, ordersFrom, List.cons.injEq] at hm
        simp only [List.head?_cons, Option.mem_def, Option.some.injEq] at ht0
        exact ht0 ▸ hm.1

/-- C5 (witness): a concrete synthesized-trigger run. -/
theorem C5_witness :
    List.Chain' (· < ·)
      ((workerRun 10 envAllOk msgNine stNine).created.map (fun i => i.processing_order)) ∧
    (∀ t0 ∈ ((workerRun 10 envAllOk msgNine stNine).created.head?),
      t0.processing_order = 0) :=
  C5_processing_orders 10 envAllOk msgNine stNine rfl

/-- C9: if the loaded workflow definition (whether read from the cache or
fetched from the DB) contains no action of type `trigger`, the worker panics
at the `get_trigger_node(..).unwrap()` instead of exiting cleanly: the
`active_sessions` membership and the cache entry survive (only the permit is
returned, by unwinding). -/
theorem C9_missing_trigger (fuel : Nat) (env : WEnv) (msg : MessageM) (st : ProcState)
    (w : WorkflowM) (sd : SessionData) :
    (cacheGet st.cache msg.flow_session_id = none → env.dbWorkflow = some w →
      getTriggerNode w = none →
      (workerRun fuel env msg st).exit = .panickedNoTrigger ∧
      (workerRun fuel env msg st).state.active = st.active ∧
      cacheGet (workerRun fuel env msg st).state.cache msg.flow_session_id =
        some ⟨some w, []⟩ ∧
      (workerRun fuel env msg st).state.sem = st.sem + 1) ∧
    (cacheGet st.cache msg.flow_session_id = some sd → sd.workflow = some w →
      getTriggerNode w = none →
      (workerRun fuel env msg st).exit = .panickedNoTrigger ∧
      (workerRun fuel env msg st).state.active = st.active ∧
      cacheGet (workerRun fuel env msg st).state.cache msg.flow_session_id = some sd ∧
      (workerRun fuel env msg st).state.sem = st.sem + 1) := by
  constructor
  · intro hc hdb htrig
    simp only [workerRun, hc, Option.none_bind, hdb, Option.isNone_none, if_true,
      workerBody, htrig]
    simp [cacheGet_set_self]
  · intro hc hw htrig
    simp only [workerRun, hc, Option.some_bind, hw, workerBody, htrig]
    simp [hc]

/-- C9 (witness): a concrete triggerless workflow. -/
theorem C9_witness :
    (workerRun 10 envNoTrigger msgNine stNine).exit = .panickedNoTrigger ∧
    (workerRun 10 envNoTrigger msgNine stNine).state.active = [9] ∧
    cacheGet (workerRun 10 envNoTrigger msgNine stNine).state.cache 9 =
      some ⟨some wfNoTrigger, []⟩ ∧
    (workerRun 10 envNoTrigger msgNine stNine).state.sem = 4 + 1 :=
  (C9_missing_trigger 10 envNoTrigger msgNine stNine wfNoTrigger ⟨none, []⟩).1
    rfl rfl rfl

theorem graphGet_pushEdge (g : List (Nat × List Nat)) (s t k : Nat) :
    graphGet (pushEdge g s t) k =
      if k = s then some ((graphGet g s).getD [] ++ [t]) else graphGet g k := by
  induction g with
  | nil =>
    by_cases h : k = s
    · simp [pushEdge, graphGet, h]
    · simp [pushEdge, graphGet, h, show ¬s = k from fun hh => h hh.symm]
  | cons kv rest ih =>
    obtain ⟨k0, ts⟩ := kv
    by_cases h1 : k0 = s
    · subst h1
      by_cases h2 : k = k0
      · simp [pushEdge, graphGet, h2]
      · simp [pushEdge, graphGet, h2, show ¬k0 = k from fun hh => h2 hh.symm]
    · by_cases h2 : k = s
      · subst h2
        simp [pushEdge, graphGet, h1, show ¬k0 = k from fun hh => h1 hh, ih,
          show ¬k0 = k from fun hh => h1 hh]
      · by_cases h3 : k0 = k <;> simp [pushEdge, graphGet, h1, h2, h3, ih]

/-- The targets of the edges out of `k`, in edge order. -/
def edgeTargets (edges : List (Nat × Nat)) (k : Nat) : List Nat :=
  edges.filterMap (fun e => if e.1 = k then some e.2 else none)

theorem graphGet_foldl (l : List (Nat × Nat)) (g : List (Nat × List Nat)) (k : Nat) :
    graphGet (l.foldl (fun g e => pushEdge g e.1 e.2) g) k =
      match graphGet g k with
      | some ts => some (ts ++ edgeTargets l k)
      | none =>
        match edgeTargets l k with
        | [] => none
        | fl => some fl := by
  induction l generalizing g with
  | nil =>
    cases h : graphGet g k <;> simp [edgeTargets, h]
  | cons e l' ih =>
    rw [List.foldl_cons, ih, graphGet_pushEdge]
    by_cases he : k = e.1
    · subst he
      rw [if_pos rfl]
      cases h : graphGet g e.1 <;> simp [edgeTargets, h]
    · rw [if_neg he]
      have h2 : ¬e.1 = k := fun hh => he hh.symm
      cases h : graphGet g k <;> simp [edgeTargets, h, h2]

theorem graphGet_buildGraph (edges : List (Nat × Nat)) (k : Nat) :
    graphGet (buildGraph edges) k =
      match edgeTargets edges k with
      | [] => none
      | fl => some fl := by
  rw [buildGraph, graphGet_foldl]
  rfl

theorem scanNeighbors_eq (actions : List ActionM) (cache : CacheM) (fsid : Nat)
    (sd : SessionData) (hsd : cacheGet cache fsid = some sd) :
    ∀ ns : List Nat, (∀ n ∈ ns, (actions.find? (fun a => a.action_id = n)).isSome) →
      scanNeighbors actions cache fsid ns =
        (ns.find? (fun n => !(sessionHasAction sd n))).bind
          (fun n => actions.find? (fun a => a.action_id = n)) := by
  intro ns
  induction ns with
  | nil => intro _; rfl
  | cons n rest ih =>
    intro hact
    have hn := hact n (List.mem_cons_self n rest)
    obtain ⟨a, ha⟩ := Option.isSome_iff_exists.mp hn
    have haid : a.action_id = n := by
      have := List.find?_some ha
      simpa using this
    simp only [scanNeighbors, ha, hsd, haid]
    cases hhas : sessionHasAction sd n
    · simp only [Bool.false_eq_true, if_false]
      simp [List.find?_cons, hhas, ha]
    · simp only [if_true]
      rw [ih (fun x hx => hact x (List.mem_cons_of_mem n hx))]
      simp [List.find?_cons, hhas]

/-- C6: after a task for action `A` completes, the selected next action is the
first neighbor of `A` in adjacency-list (edge) order for which no task with
that `action_id` exists in the session; with no neighbors, or all neighbors
claimed, nothing is selected and the workflow is treated as complete.
(Hypotheses: the session is in the cache, and every neighbor id has an action
definition.) -/
theorem C6_next_action (edges : List (Nat × Nat)) (actions : List ActionM)
    (cache : CacheM) (fsid : Nat) (sd : SessionData) (aid : Nat)
    (hsd : cacheGet cache fsid = some sd)
    (hact : ∀ n ∈ edgeTargets edges aid, (actions.find? (fun a => a.action_id = n)).isSome) :
    nextActionSel (buildGraph edges) actions cache fsid aid =
      ((edgeTargets edges aid).find? (fun n => !(sessionHasAction sd n))).bind
        (fun n => actions.find? (fun a => a.action_id = n)) := by
  rw [nextActionSel, graphGet_buildGraph]
  cases h : edgeTargets edges aid with
  | nil => rfl
  | cons n rest =>
    have := scanNeighbors_eq actions cache fsid sd hsd (n :: rest) (h ▸ hact)
    simpa using this

/-- C6 (witness): in `wfTwo` (trigger 0 → action 1) with action 0 completed,
the selection after 0 is action 1 and the selection after 1 is complete. -/
theorem C6_witness :
    nextActionSel (buildGraph wfTwo.edges) wfTwo.actions cacheTwo 9 0 =
      ((edgeTargets wfTwo.edges 0).find? (fun n => !(sessionHasAction sdTwo n))).bind
        (fun n => wfTwo.actions.find? (fun a => a.action_id = n)) ∧
    nextActionSel (buildGraph wfTwo.edges) wfTwo.actions cacheTwo 9 1 =
      ((edgeTargets wfTwo.edges 1).find? (fun n => !(sessionHasAction sdTwo n))).bind
        (fun n => wfTwo.actions.find? (fun a => a.action_id = n)) :=
  ⟨C6_next_action wfTwo.edges wfTwo.actions cacheTwo 9 sdTwo 0 rfl (by decide),
   C6_next_action wfTwo.edges wfTwo.actions cacheTwo 9 sdTwo 1 rfl (by decide)⟩

theorem lookupByAction_removeKey (m : List (Nat × TaskM)) (x k : Nat) (h : x ≠ k) :
    lookupByAction (removeKey m x) k = lookupByAction m k := by
  induction m with
  | nil => rfl
  | cons kv rest ih =>
    obtain ⟨k0, t0⟩ := kv
    by_cases h2 : k0 = x
    · have h3 : ¬k0 = k := by rw [h2]; exact h
      simp [removeKey, h2, lookupByAction, h3, h, ih]
    · by_cases h1 : k0 = k
      · simp [removeKey, h2, lookupByAction, h1, ih,
          show ¬k = x from fun hh => h2 (h1.trans hh)]
      · simp [removeKey, h2, lookupByAction, h1, ih]

theorem lookupByAction_upsert (m : List (Nat × TaskM)) (t : TaskM) (k : Nat) :
    lookupByAction (upsertTaskByAction m t) k =
      if t.action_id = k then some t else lookupByAction m k := by
  by_cases h : t.action_id = k
  · simp [upsertTaskByAction, lookupByAction, h]
  · simp only [upsertTaskByAction, lookupByAction, h, if_false]
    exact lookupByAction_removeKey m t.action_id k h

theorem lookupByAction_foldl_mem (l : List TaskM) :
    ∀ (init : List (Nat × TaskM)) (k : Nat) (t : TaskM),
      lookupByAction (l.foldl upsertTaskByAction init) k = some t →
      (t ∈ l ∧ t.action_id = k) ∨ lookupByAction init k = some t := by
  induction l with
  | nil => intro init k t h; exact Or.inr h
  | cons hd tl ih =>
    intro init k t h
    rw [List.foldl_cons] at h
    rcases ih _ k t h with h1 | h1
    · exact Or.inl ⟨List.mem_cons_of_mem hd h1.1, h1.2⟩
    · rw [lookupByAction_upsert] at h1
      split at h1
      · cases h1
        exact Or.inl ⟨List.mem_cons_self hd tl, by assumption⟩
      · exact Or.inr h1

theorem lookupByAction_foldl_isSome (l : List TaskM) :
    ∀ (init : List (Nat × TaskM)) (k : Nat),
      ((∃ t ∈ l, t.action_id = k) ∨ (lookupByAction init k).isSome) →
      (lookupByAction (l.foldl upsertTaskByAction init) k).isSome := by
  induction l with
  | nil =>
    intro init k h
    rcases h with ⟨t, ht, _⟩ | h
    · simp at ht
    · exact h
  | cons hd tl ih =>
    intro init k h
    rw [List.foldl_cons]
    apply ih
    rcases h with ⟨t, ht, hk⟩ | h
    · rcases List.mem_cons.mp ht with rfl | ht'
      · right
        rw [lookupByAction_upsert]
        simp [hk]
      · exact Or.inl ⟨t, ht', hk⟩
    · right
      rw [lookupByAction_upsert]
      split <;> simp [h]

/-- C8: the `actions` namespace maps `action_id` to a prior task of the
session exactly when that session holds a task with that `action_id` in state
`completed`; every exposed task is completed and comes from the session's
task map, and an absent session yields an empty namespace. -/
theorem C8_actions_namespace (cache : CacheM) (fsid aid : Nat) (sd : SessionData)
    (t : TaskM) :
    (cacheGet cache fsid = none → actionsNamespace cache fsid = []) ∧
    (cacheGet cache fsid = some sd →
      (lookupByAction (actionsNamespace cache fsid) aid = some t →
        t.task_status = .completed ∧ t.action_id = aid ∧ ∃ kv ∈ sd.tasks, kv.2 = t) ∧
      ((∃ kv ∈ sd.tasks, kv.2.action_id = aid ∧ kv.2.task_status = .completed) →
        (lookupByAction (actionsNamespace cache fsid) aid).isSome)) := by
  constructor
  · intro h
    simp [actionsNamespace, fetchCompletedCachedTasks, h]
  · intro h
    constructor
    · intro hl
      rcases lookupByAction_foldl_mem _ [] aid t hl with ⟨hmem, hk⟩ | habs
      · rw [fetchCompletedCachedTasks, h] at hmem
        rw [List.mem_filter] at hmem
        refine ⟨by simpa using hmem.2, hk, ?_⟩
        rcases List.mem_map.mp hmem.1 with ⟨kv, hkv, rfl⟩
        exact ⟨kv, hkv, rfl⟩
      · simp [lookupByAction] at habs
    · rintro ⟨kv, hkv, hk, hc⟩
      apply lookupByAction_foldl_isSome
      left
      refine ⟨kv.2, ?_, hk⟩
      rw [fetchCompletedCachedTasks, h, List.mem_filter]
      exact ⟨List.mem_map.mpr ⟨kv, hkv, rfl⟩, by simp [hc]⟩

theorem findCh_lt_length : ∀ (s : Chars) (c : Char) (i : Nat),
    findCh s c = some i → i < s.length := by
  intro s
  induction s with
  | nil => intro c i h; simp [findCh] at h
  | cons x rest ih =>
    intro c i h
    rw [findCh] at h
    split at h
    · cases h; simp
    · cases hr : findCh rest c with
      | none => rw [hr] at h; simp at h
      | some j =>
        rw [hr] at h
        simp only [Option.map_some', Option.some.injEq] at h
        have := ih c j hr
        simp [← h]
        omega

theorem findCh_append_some : ∀ (s t : Chars) (c : Char) (i : Nat),
    findCh s c = some i → findCh (s ++ t) c = some i := by
  intro s
  induction s with
  | nil => intro t c i h; simp [findCh] at h
  | cons x rest ih =>
    intro t c i h
    rw [findCh] at h
    rw [List.cons_append, findCh]
    split at h
    · cases h; simp_all
    · next hx =>
      rw [if_neg hx]
      cases hr : findCh rest c with
      | none => rw [hr] at h; simp at h
      | some j =>
        rw [hr] at h
        rw [ih t c j hr]
        exact h

theorem findCh_append_none : ∀ (s : Chars) (c : Char),
    findCh s c = none → findCh (s ++ [c]) c = some s.length := by
  intro s
  induction s with
  | nil => intro c _; simp [findCh]
  | cons x rest ih =>
    intro c h
    rw [findCh] at h
    split at h
    · simp at h
    · next hx =>
      rw [List.cons_append, findCh, if_neg hx]
      cases hr : findCh rest c with
      | none => rw [ih c hr]; simp
      | some j => rw [hr] at h; simp at h

/-- Appending the missing `]` to a segment that has `[` but no `]` leaves the
segment step unchanged: the index was already parsed to the end of the
segment. -/
theorem segStep_no_close (cur : Json) (seg : Chars) (i : Nat)
    (h1 : findCh seg '[' = some i) (h2 : findCh seg ']' = none) :
    segStep cur (seg ++ [']']) = segStep cur seg := by
  have hi : i < seg.length := findCh_lt_length seg '[' i h1
  rw [segStep, segStep, h1, findCh_append_some seg [']'] '[' i h1, h2,
    findCh_append_none seg ']' h2]
  simp only [Option.getD_some, Option.getD_none]
  have hif : ¬i + 1 > seg.length := by omega
  rw [if_neg hif, if_neg hif]
  have hkey : (seg ++ [']']).take i = seg.take i :=
    List.take_append_of_le_length (by omega)
  have hdrop : (seg ++ [']']).drop (i + 1) = seg.drop (i + 1) ++ [']'] :=
    List.drop_append_of_le_length (by omega)
  have hlen : (seg.drop (i + 1)).length = seg.length - (i + 1) := List.length_drop _ _
  have hsl : ((seg ++ [']']).drop (i + 1)).take (seg.length - (i + 1)) =
      (seg.drop (i + 1)).take (seg.length - (i + 1)) := by
    rw [hdrop, List.take_left' hlen, List.take_of_length_le (le_of_eq hlen)]
  rw [hkey, hsl]

/-- C10: a segment with `[` and no closing `]` resolves as if the `]` were at
the segment's end, and within an indexed segment a non-numeric index, a
non-array value under the key, or an out-of-range index each make the whole
resolution return unresolved (`None`) — not an error and not a panic. -/
theorem C10_segment_resolution (ctx : Json) (seg : Chars) (rest : List Chars)
    (i idx : Nat) (v : Json) :
    (findCh seg '[' = some i → findCh seg ']' = none →
      resolveParts ctx ((seg ++ [']']) :: rest) = resolveParts ctx (seg :: rest)) ∧
    (findCh seg '[' = some i →
      i + 1 ≤ (findCh seg ']').getD seg.length →
      parseUsize ((seg.drop (i + 1)).take ((findCh seg ']').getD seg.length - (i + 1))) =
        none →
      resolveParts ctx (seg :: rest) = .ok none) ∧
    (findCh seg '[' = some i →
      i + 1 ≤ (findCh seg ']').getD seg.length →
      parseUsize ((seg.drop (i + 1)).take ((findCh seg ']').getD seg.length - (i + 1))) =
        some idx →
      ctx.getKey (seg.take i) = some v → v.isArr = false →
      resolveParts ctx (seg :: rest) = .ok none) ∧
    (findCh seg '[' = some i →
      i + 1 ≤ (findCh seg ']').getD seg.length →
      parseUsize ((seg.drop (i + 1)).take ((findCh seg ']').getD seg.length - (i + 1))) =
        some idx →
      ctx.getKey (seg.take i) = some v → v.isArr = true → v.getIdx idx = none →
      resolveParts ctx (seg :: rest) = .ok none) := by
  refine ⟨fun h1 h2 => ?_, fun h1 h2 h3 => ?_, fun h1 h2 h3 h4 h5 => ?_,
    fun h1 h2 h3 h4 h5 h6 => ?_⟩
  · simp only [resolveParts, segStep_no_close ctx seg i h1 h2]
  · simp only [resolveParts, segStep, h1]
    rw [if_neg (by omega), h3]
  · simp only [resolveParts, segStep, h1]
    rw [if_neg (by omega), h3]
    simp [h4, h5]
  · simp only [resolveParts, segStep, h1]
    rw [if_neg (by omega), h3]
    simp [h4, h5, h6]

/-- C10 (witness): concrete segments over `{"key": [10,20,30]}` and
`{"variables": {...}}` — truncated bracket, non-numeric index, non-array
value, out-of-range index. -/
theorem C10_witness :
    resolveParts ctxKeyArr (("key[2".data ++ [']']) :: []) =
      resolveParts ctxKeyArr ("key[2".data :: []) ∧
    resolveParts ctxKeyArr ("key[x]".data :: []) = .ok none ∧
    resolveParts ctxVars42 ("variables[0".data :: []) = .ok none ∧
    resolveParts ctxKeyArr ("key[9]".data :: []) = .ok none :=
  ⟨(C10_segment_resolution ctxKeyArr "key[2".data [] 3 0 .null).1 (by decide) (by decide),
   (C10_segment_resolution ctxKeyArr "key[x]".data [] 3 0 .null).2.1 (by decide)
     (by decide) (by decide),
   (C10_segment_resolution ctxVars42 "variables[0".data [] 9 0
       (.obj (.cons ['n'] (jint 42) .nil))).2.2.1 (by decide) (by decide) (by decide)
     (by decide) (by decide),
   (C10_segment_resolution ctxKeyArr "key[9]".data [] 3 9
       (.arr (.cons (jint 10) (.cons (jint 20) (.cons (jint 30) .nil))))).2.2.2
     (by decide) (by decide) (by decide) (by decide) (by decide) (by decide)⟩

/-- C1 (counterexample): the string leaf `{{a}} {{b}}` is not exactly one
whole placeholder, yet render does not hand it to interpolation: the
whole-string branch fires (the trimmed leaf starts with `{{` and ends with
`}}`), takes the entire inner text `a}} {{b` as one path, resolves it in the
context, and returns the raw number 5 — while interpolation would have
produced the string `1 2`. -/
theorem C1_counterexample :
    isWholePlaceholderB leafTwo = false ∧
    renderValue ctxOdd [] (.str leafTwo) = .ok (jint 5) ∧
    (interpolateGo ctxOdd [] (leafTwo.length + 1) [] leafTwo).map Json.str =
      .ok (.str "1 2".data) := by
  decide

/-- C1 (amended): a string leaf whose trimmed form starts with `{{` and ends
with `}}` is treated as one whole placeholder over the entire inner text —
when no validation is declared for its key and the path resolves, the raw
resolved value is returned, preserving its JSON type; every string leaf
failing that starts/ends test is handled by interpolation. -/
theorem C1_whole_string (s : Chars) (ctx : Json) (valids : VMap) (p : Chars) (v : Json) :
    (wholeInner s = some p → lookupVMap valids (topKeyOf p) = none →
      getValueFromPath ctx p = .ok (some v) →
      renderValue ctx valids (.str s) = .ok v) ∧
    (wholeInner s = none →
      renderValue ctx valids (.str s) =
        (interpolateGo ctx valids (s.length + 1) [] s).map .str) := by
  constructor
  · intro h1 h2 h3
    simp only [renderValue, renderString, h1, h2, h3]
  · intro h4
    simp only [renderValue, renderString, h4]

/-- C1 (witness): `{{variables.n}}` over `{"variables": {"n": 42}}` returns
the raw number 42; a brace-free leaf goes through interpolation. -/
theorem C1_witness :
    renderValue ctxVars42 [] (.str leafVarN) = .ok (jint 42) ∧
    renderValue ctxVars42 [] (.str "Hello".data) =
      (interpolateGo ctxVars42 [] ("Hello".data.length + 1) [] "Hello".data).map .str :=
  ⟨(C1_whole_string leafVarN ctxVars42 [] "variables.n".data (jint 42)).1
      (by decide) (by decide) (by decide),
   (C1_whole_string "Hello".data ctxVars42 [] [] .null).2 (by decide)⟩

/-- C4 (code bug): rendering `{"g": "{{variables.n}}"}` with validation
`n : number` against `{"variables": {"n": "NaN"}}` panics at
`serde_json::Number::from_f64(n).unwrap()` instead of returning the adjacent
structured `TemplateError`: `"NaN"` parses as an `f64` NaN, which `from_f64`
rejects.  The pass-through halves of the claim hold: numbers pass number
validation unchanged, and strings are parsed as decimal floating-point. -/
theorem C4_number_validation_panic :
    renderValue ctxNaN [(['n'], .number)] tmplNaN =
      .error (.panicked .numberFromF64Unwrap) ∧
    rustParseF64 "NaN".data = some .nan ∧
    numberFromF64 .nan = none ∧
    (∀ (n : JNum) (varName : Chars),
      validateAndConvert (.num n) .number varName = .ok (.num n)) := by
  refine ⟨by decide, by decide, rfl, ?_⟩
  intro n varName
  rfl

theorem pat2At_lt (s : Chars) (j : Nat) (a b : Char) (h : pat2At s j a b) :
    j + 1 < s.length := by
  obtain ⟨hlt, _⟩ := List.getElem?_eq_some_iff.mp h.2
  exact hlt

theorem pat2At_append (v w : Chars) (j : Nat) (a b : Char) (h : pat2At v j a b) :
    pat2At (v ++ w) j a b := by
  have hj1 : j + 1 < v.length := pat2At_lt v j a b h
  exact ⟨by rw [List.getElem?_append_left (by omega)]; exact h.1,
    by rw [List.getElem?_append_left hj1]; exact h.2⟩

theorem pat2At_cons (x : Char) (s : Chars) (j : Nat) (a b : Char) :
    pat2At (x :: s) (j + 1) a b ↔ pat2At s j a b := by
  simp [pat2At]

theorem pat2At_drop (s : Chars) (i j : Nat) (a b : Char) :
    pat2At (s.drop i) j a b ↔ pat2At s (i + j) a b := by
  unfold pat2At
  rw [List.getElem?_drop, List.getElem?_drop, Nat.add_assoc]

theorem pat2At_junction (u : Chars) (a b : Char) (w : Chars) :
    pat2At (u ++ a :: b :: w) u.length a b := by
  constructor
  · rw [List.getElem?_append_right (le_refl _)]
    simp
  · rw [List.getElem?_append_right (by omega)]
    simp [Nat.add_sub_cancel_left]

theorem find2_some : ∀ (s : Chars) (a b : Char) (i : Nat), find2 s a b = some i →
    s[i]? = some a ∧ s[i + 1]? = some b ∧ ∀ j, j < i → ¬pat2At s j a b
  | [], a, b, i, h => by simp [find2] at h
  | [x], a, b, i, h => by simp [find2] at h
  | x :: y :: rest, a, b, i, h => by
    rw [find2] at h
    split at h
    · next hab =>
      cases h
      exact ⟨by simpa using hab.1, by simpa using hab.2, fun j hj => by omega⟩
    · next hab =>
      cases hr : find2 (y :: rest) a b with
      | none => rw [hr] at h; simp at h
      | some j =>
        rw [hr] at h
        simp only [Option.map_some', Option.some.injEq] at h
        obtain ⟨g1, g2, gmin⟩ := find2_some (y :: rest) a b j hr
        subst h
        refine ⟨by simpa using g1, by simpa using g2, ?_⟩
        intro k hk hp
        cases k with
        | zero =>
          exact hab ⟨by simpa using hp.1, by simpa using hp.2⟩
        | succ k' =>
          exact gmin k' (by omega) ((pat2At_cons x (y :: rest) k' a b).mp hp)

theorem find2_none : ∀ (s : Chars) (a b : Char), find2 s a b = none →
    ∀ j, ¬pat2At s j a b
  | [], _, _, _, j, hp => by simp [pat2At] at hp
  | [x], _, _, _, j, hp => by
    obtain ⟨h1, h2⟩ := hp
    rw [List.getElem?_eq_some_iff] at h2
    obtain ⟨hlt, _⟩ := h2
    simp at hlt
  | x :: y :: rest, a, b, h, j, hp => by
    rw [find2] at h
    split at h
    · simp at h
    · next hab =>
      cases hr : find2 (y :: rest) a b with
      | some k => rw [hr] at h; simp at h
      | none =>
        cases j with
        | zero => exact hab ⟨by simpa using hp.1, by simpa using hp.2⟩
        | succ j' =>
          exact find2_none (y :: rest) a b hr j' ((pat2At_cons x (y :: rest) j' a b).mp hp)

theorem decomp2 (s : Chars) (i : Nat) (a b : Char) (h1 : s[i]? = some a)
    (h2 : s[i + 1]? = some b) :
    s = s.take i ++ a :: b :: s.drop (i + 2) := by
  obtain ⟨hi1, he1⟩ := List.getElem?_eq_some_iff.mp h1
  obtain ⟨hi2, he2⟩ := List.getElem?_eq_some_iff.mp h2
  conv_lhs => rw [← List.take_append_drop i s]
  congr 1
  rw [List.drop_eq_getElem_cons (by omega : i < s.length)]
  rw [List.drop_eq_getElem_cons (by omega : i + 1 < s.length)]
  rw [he1, he2]

/-- Soundness of the scan loop: an `ok` scan result is exactly the claim's
occurrence list. -/
theorem scanGo_sound : ∀ (fuel : Nat) (orig s : Chars) (l : List Chars),
    s.length < fuel → scanVarsGo orig fuel s = .ok l → ScansTo s l := by
  intro fuel
  induction fuel with
  | zero => intro orig s l h; exact absurd h (Nat.not_lt_zero _)
  | succ n ih =>
    intro orig s l hlen h
    rw [scanVarsGo] at h
    split at h
    next ho =>
      cases h
      exact ScansTo.done s (fun hp => by
        obtain ⟨j, hj⟩ := hp
        exact find2_none s '{' '{' ho j hj)
    next i ho =>
      obtain ⟨g1, g2, gmin⟩ := find2_some s '{' '{' i ho
      split at h
      next hc => simp at h
      next c hc =>
        cases hrec : scanVarsGo orig n (s.drop (i + c + 2)) with
        | error e =>
          rw [hrec] at h
          simp [Except.map] at h
        | ok tail =>
          rw [hrec] at h
          simp only [Except.map] at h
          obtain ⟨gc1, gc2, gcmin⟩ := find2_some (s.drop i) '}' '}' c hc
          rw [List.getElem?_drop] at gc1 gc2
          have hi1 : i + 1 < s.length := (List.getElem?_eq_some_iff.mp g2).1
          have hc2 : 2 ≤ c := by
            rcases Nat.lt_or_ge c 2 with hlt | hge
            · interval_cases c
              · rw [Nat.add_zero] at gc1
                rw [g1] at gc1
                simp at gc1
              · rw [g2] at gc1
                simp at gc1
            · exact hge
          have hci : i + c + 1 < s.length := by
            have := (List.getElem?_eq_some_iff.mp gc2).1
            omega
          have hs : s = s.take i ++ '{' :: '{' :: s.drop (i + 2) :=
            decomp2 s i '{' '{' g1 g2
          have hm1 : (s.drop (i + 2))[c - 2]? = some '}' := by
            rw [List.getElem?_drop, show i + 2 + (c - 2) = i + c from by omega]
            exact gc1
          have hm2 : (s.drop (i + 2))[c - 2 + 1]? = some '}' := by
            rw [List.getElem?_drop, show i + 2 + (c - 2 + 1) = i + (c + 1) from by omega]
            exact gc2
          have hmid : s.drop (i + 2) =
              (s.drop (i + 2)).take (c - 2) ++ '}' :: '}' :: (s.drop (i + 2)).drop (c - 2 + 2) :=
            decomp2 (s.drop (i + 2)) (c - 2) '}' '}' hm1 hm2
          have hrest : (s.drop (i + 2)).drop (c - 2 + 2) = s.drop (i + c + 2) := by
            rw [List.drop_drop, show i + 2 + (c - 2 + 2) = i + c + 2 from by omega]
          have hfull : s = s.take i ++ '{' :: '{' ::
              ((s.drop (i + 2)).take (c - 2) ++ '}' :: '}' :: s.drop (i + c + 2)) := by
            conv_lhs => rw [hs]
            rw [← hrest, ← hmid]
          have hdropi : s.drop i = '{' :: '{' :: s.drop (i + 2) := by
            conv_lhs => rw [hs]
            rw [List.drop_left' (by simp; omega)]
          have hb : ¬ hasPat2 (s.take i ++ ['{']) '{' '{' := by
            rintro ⟨j, hp⟩
            have hjb := pat2At_lt _ j '{' '{' hp
            rw [List.length_append, List.length_take] at hjb
            simp only [List.length_singleton] at hjb
            have hji : j < i := by omega
            refine gmin j hji ?_
            have hp' := pat2At_append (s.take i ++ ['{']) ('{' :: s.drop (i + 2)) j '{' '{' hp
            rw [List.append_assoc] at hp'
            simpa [← hs] using hp'
          have hinner : ¬ hasPat2 ((s.drop (i + 2)).take (c - 2) ++ ['}']) '}' '}' := by
            rintro ⟨j, hp⟩
            have hjb := pat2At_lt _ j '}' '}' hp
            rw [List.length_append, List.length_take] at hjb
            simp only [List.length_singleton] at hjb
            have hmlen : (s.drop (i + 2)).length = s.length - (i + 2) := List.length_drop _ _
            have hji : j < c - 2 := by omega
            refine gcmin (j + 2) (by omega) ?_
            rw [hdropi, pat2At_cons, pat2At_cons]
            have hp' := pat2At_append ((s.drop (i + 2)).take (c - 2) ++ ['}'])
              ('}' :: s.drop (i + c + 2)) j '}' '}' hp
            rw [List.append_assoc] at hp'
            rw [hmid, hrest]
            exact hp'
          have htail : ScansTo (s.drop (i + c + 2)) tail := by
            refine ih orig _ tail ?_ hrec
            rw [List.length_drop]
            omega
          have hmore := ScansTo.more (s.take i) ((s.drop (i + 2)).take (c - 2))
            (s.drop (i + c + 2)) tail hb hinner htail
          have hfix : (List.take i s ++ '{' :: '{' :: List.take (c - 2) (List.drop (i + 2) s)
              ++ '}' :: '}' :: List.drop (i + c + 2) s) = s := by
            conv_rhs => rw [hfull]
            simp
          rw [hfix] at hmore
          cases h
          exact hmore

theorem drop_cons2 (s : Chars) (i : Nat) (a b : Char) (h1 : s[i]? = some a)
    (h2 : s[i + 1]? = some b) : s.drop i = a :: b :: s.drop (i + 2) := by
  obtain ⟨hi1, he1⟩ := List.getElem?_eq_some_iff.mp h1
  obtain ⟨hi2, he2⟩ := List.getElem?_eq_some_iff.mp h2
  rw [List.drop_eq_getElem_cons (by omega : i < s.length),
    List.drop_eq_getElem_cons (by omega : i + 1 < s.length), he1, he2]

/-- A scan error means some `{{` has no subsequent `}}`. -/
theorem scanGo_error_to : ∀ (fuel : Nat) (orig s : Chars),
    s.length < fuel → (∃ e, scanVarsGo orig fuel s = .error e) → specUnclosed s := by
  intro fuel
  induction fuel with
  | zero => intro orig s h; exact absurd h (Nat.not_lt_zero _)
  | succ n ih =>
    rintro orig s hlen ⟨e, h⟩
    rw [scanVarsGo] at h
    split at h
    next ho => simp at h
    next i ho =>
      obtain ⟨g1, g2, _⟩ := find2_some s '{' '{' i ho
      split at h
      next hc =>
        refine ⟨s.take i, s.drop (i + 2), decomp2 s i '{' '{' g1 g2, ?_⟩
        rintro ⟨j, hp⟩
        have hdropi : s.drop i = '{' :: '{' :: s.drop (i + 2) := drop_cons2 s i '{' '{' g1 g2
        refine find2_none _ '}' '}' hc (j + 2) ?_
        rw [hdropi, pat2At_cons, pat2At_cons]
        exact hp
      next c hc =>
        obtain ⟨gc1, gc2, _⟩ := find2_some (s.drop i) '}' '}' c hc
        rw [List.getElem?_drop] at gc2
        have hci : i + (c + 1) < s.length := (List.getElem?_eq_some_iff.mp gc2).1
        cases hrec : scanVarsGo orig n (s.drop (i + c + 2)) with
        | ok tail =>
          rw [hrec] at h
          simp [Except.map] at h
        | error e' =>
          obtain ⟨u, v, huv, hv⟩ := ih orig (s.drop (i + c + 2))
            (by rw [List.length_drop]; omega) ⟨e', hrec⟩
          refine ⟨s.take (i + c + 2) ++ u, v, ?_, hv⟩
          conv_lhs => rw [← List.take_append_drop (i + c + 2) s]
          rw [huv, List.append_assoc]

/-- Conversely, an unclosed `{{` always makes the scan fail. -/
theorem scanGo_unclosed_error : ∀ (fuel : Nat) (orig s : Chars),
    s.length < fuel → specUnclosed s → ∃ e, scanVarsGo orig fuel s = .error e := by
  intro fuel
  induction fuel with
  | zero => intro orig s h; exact absurd h (Nat.not_lt_zero _)
  | succ n ih =>
    rintro orig s hlen ⟨u, v, huv, hv⟩
    have hopen : pat2At s u.length '{' '{' := by
      rw [huv]
      exact pat2At_junction u '{' '{' v
    have hulen : u.length + 1 < s.length := pat2At_lt s u.length '{' '{' hopen
    cases ho : find2 s '{' '{' with
    | none => exact absurd hopen (find2_none s '{' '{' ho u.length)
    | some i =>
      obtain ⟨g1, g2, gmin⟩ := find2_some s '{' '{' i ho
      have hi_le : i ≤ u.length := by
        by_contra hgt
        exact gmin u.length (by omega) hopen
      cases hc : find2 (s.drop i) '}' '}' with
      | none =>
        exact ⟨⟨msgUnclosed, orig⟩, by simp only [scanVarsGo, ho, hc]⟩
      | some c =>
        obtain ⟨gc1, gc2, _⟩ := find2_some (s.drop i) '}' '}' c hc
        rw [List.getElem?_drop] at gc1 gc2
        have hci : i + (c + 1) < s.length := (List.getElem?_eq_some_iff.mp gc2).1
        have hvdrop : s.drop (u.length + 2) = v := by
          rw [huv, show u ++ '{' :: '{' :: v = (u ++ ['{', '{']) ++ v from by simp,
            List.drop_left' (by simp)]
        have hne : i + c + 2 ≤ u.length := by
          rcases Nat.lt_or_ge (i + c) u.length with hlt | hge
          · rcases Nat.eq_or_lt_of_le (Nat.succ_le_of_lt hlt) with heq | hlt2
            · exfalso
              rw [show i + (c + 1) = u.length from by omega] at gc2
              rw [hopen.1] at gc2
              simp at gc2
            · omega
          · exfalso
            rcases Nat.eq_or_lt_of_le hge with heq | hgt
            · rw [← heq] at gc1
              rw [hopen.1] at gc1
              simp at gc1
            · rcases Nat.eq_or_lt_of_le (Nat.succ_le_of_lt hgt) with heq2 | hgt2
              · rw [show i + c = u.length + 1 from by omega] at gc1
                rw [hopen.2] at gc1
                simp at gc1
              · apply hv
                refine ⟨i + c - (u.length + 2), ?_⟩
                rw [← hvdrop, pat2At_drop,
                  show u.length + 2 + (i + c - (u.length + 2)) = i + c from by omega]
                exact ⟨gc1, by rw [show i + c + 1 = i + (c + 1) from by omega]; exact gc2⟩
        have hrest : specUnclosed (s.drop (i + c + 2)) := by
          refine ⟨u.drop (i + c + 2), v, ?_, hv⟩
          rw [huv, List.drop_append_of_le_length hne]
        obtain ⟨e', he'⟩ := ih orig (s.drop (i + c + 2))
          (by rw [List.length_drop]; omega) hrest
        exact ⟨e', by simp only [scanVarsGo, ho, hc, he', Except.map]⟩

theorem scanVars_sound (s : Chars) (l : List Chars) (h : scanVars s = .ok l) :
    ScansTo s l :=
  scanGo_sound (s.length + 1) s s l (Nat.lt_succ_self _) h

theorem scanVars_error_iff (s : Chars) :
    (∃ e, scanVars s = .error e) ↔ specUnclosed s :=
  ⟨scanGo_error_to (s.length + 1) s s (Nat.lt_succ_self _),
   scanGo_unclosed_error (s.length + 1) s s (Nat.lt_succ_self _)⟩

mutual
theorem extract_sound : ∀ (t : Json) (l : List Chars),
    extractVariables t = .ok l → jExtracts t l
  | .null, _, h => by cases h; simp [jExtracts]
  | .bool _, _, h => by cases h; simp [jExtracts]
  | .num _, _, h => by cases h; simp [jExtracts]
  | .str s, l, h => scanVars_sound s l h
  | .obj fields, l, h => fields_sound fields l h
  | .arr items, l, h => items_sound items l h

theorem fields_sound : ∀ (f : JsonFields) (l : List Chars),
    extractFromFields f = .ok l → fExtracts f l
  | .nil, _, h => by cases h; simp [fExtracts]
  | .cons _ v tl, l, h => by
    rw [extractFromFields] at h
    split at h
    next he => simp at h
    next l1 he =>
      cases ht : extractFromFields tl with
      | error e2 => rw [ht] at h; simp [Except.map] at h
      | ok l2 =>
        rw [ht] at h
        simp only [Except.map] at h
        cases h
        exact ⟨l1, l2, rfl, extract_sound v l1 he, fields_sound tl l2 ht⟩

theorem items_sound : ∀ (il : JsonList) (l : List Chars),
    extractFromItems il = .ok l → iExtracts il l
  | .nil, _, h => by cases h; simp [iExtracts]
  | .cons v tl, l, h => by
    rw [extractFromItems] at h
    split at h
    next he => simp at h
    next l1 he =>
      cases ht : extractFromItems tl with
      | error e2 => rw [ht] at h; simp [Except.map] at h
      | ok l2 =>
        rw [ht] at h
        simp only [Except.map] at h
        cases h
        exact ⟨l1, l2, rfl, extract_sound v l1 he, items_sound tl l2 ht⟩
end

mutual
theorem extract_error_iff : ∀ (t : Json),
    (∃ e, extractVariables t = .error e) ↔ jUnclosed t
  | .null => by simp [extractVariables, jUnclosed]
  | .bool b => by simp [extractVariables, jUnclosed]
  | .num n => by simp [extractVariables, jUnclosed]
  | .str s => scanVars_error_iff s
  | .obj fields => fields_error_iff fields
  | .arr items => items_error_iff items

theorem fields_error_iff : ∀ (f : JsonFields),
    (∃ e, extractFromFields f = .error e) ↔ fUnclosed f
  | .nil => by simp [extractFromFields, fUnclosed]
  | .cons k v tl => by
    show _ ↔ jUnclosed v ∨ fUnclosed tl
    constructor
    · rintro ⟨e, h⟩
      rw [extractFromFields] at h
      split at h
      next e' he => exact Or.inl ((extract_error_iff v).mp ⟨e', he⟩)
      next l1 he =>
        cases ht : extractFromFields tl with
        | error e2 => exact Or.inr ((fields_error_iff tl).mp ⟨e2, ht⟩)
        | ok l2 => rw [ht] at h; simp [Except.map] at h
    · intro hor
      rcases hor with hv | htl
      · obtain ⟨e, he⟩ := (extract_error_iff v).mpr hv
        exact ⟨e, by rw [extractFromFields]; simp only [he]⟩
      · obtain ⟨e, he⟩ := (fields_error_iff tl).mpr htl
        cases hv' : extractVariables v with
        | error e2 => exact ⟨e2, by rw [extractFromFields]; simp only [hv']⟩
        | ok l1 => exact ⟨e, by rw [extractFromFields]; simp only [hv', he, Except.map]⟩

theorem items_error_iff : ∀ (il : JsonList),
    (∃ e, extractFromItems il = .error e) ↔ iUnclosed il
  | .nil => by simp [extractFromItems, iUnclosed]
  | .cons v tl => by
    show _ ↔ jUnclosed v ∨ iUnclosed tl
    constructor
    · rintro ⟨e, h⟩
      rw [extractFromItems] at h
      split at h
      next e' he => exact Or.inl ((extract_error_iff v).mp ⟨e', he⟩)
      next l1 he =>
        cases ht : extractFromItems tl with
        | error e2 => exact Or.inr ((items_error_iff tl).mp ⟨e2, ht⟩)
        | ok l2 => rw [ht] at h; simp [Except.map] at h
    · intro hor
      rcases hor with hv | htl
      · obtain ⟨e, he⟩ := (extract_error_iff v).mpr hv
        exact ⟨e, by rw [extractFromItems]; simp only [he]⟩
      · obtain ⟨e, he⟩ := (items_error_iff tl).mpr htl
        cases hv' : extractVariables v with
        | error e2 => exact ⟨e2, by rw [extractFromItems]; simp only [hv']⟩
        | ok l1 => exact ⟨e, by rw [extractFromItems]; simp only [hv', he, Except.map]⟩
end

/-- C7: for a registered template, `get_template_variables` returns exactly
the trimmed paths standing between `{{` and the first following `}}`, walking
object values, array elements and string leaves depth-first, in occurrence
order and including duplicates; and it fails with a `TemplateError` exactly
when some string leaf contains `{{` with no closing `}}`. -/
theorem C7_extract_variables (tp : Templater) (name : Chars) (t : Json) (l : List Chars)
    (hreg : lookupTemplate tp.templates name = some t) :
    (tp.getTemplateVariables name = .ok l → jExtracts t l) ∧
    ((∃ e, tp.getTemplateVariables name = .error e) ↔ jUnclosed t) := by
  rw [Templater.getTemplateVariables]
  simp only [hreg]
  exact ⟨extract_sound t l, extract_error_iff t⟩

/-- C7 (witness): the registered template `{"g": "Hello {{a}} {{ b.c }}"}`
extracts `["a", "b.c"]`. -/
theorem C7_witness : jExtracts tmplHello ["a".data, "b.c".data] :=
  (C7_extract_variables tmplrHello "t".data tmplHello ["a".data, "b.c".data]
    (by decide)).1 (by decide)

/-- C8 (witness): session 9 of `cacheTwo` exposes completed action 0 and not
running action 1; an absent session yields the empty namespace. -/
theorem C8_witness :
    (actionsNamespace ([] : CacheM) 9 = []) ∧
    (taskDoneA0.task_status = .completed ∧ taskDoneA0.action_id = 0 ∧
      ∃ kv ∈ sdTwo.tasks, kv.2 = taskDoneA0) ∧
    (lookupByAction (actionsNamespace cacheTwo 9) 0).isSome :=
  ⟨(C8_actions_namespace [] 9 9 ⟨none, []⟩ taskDoneA0).1 rfl,
   ((C8_actions_namespace cacheTwo 9 0 sdTwo taskDoneA0).2 rfl).1 (by decide),
   ((C8_actions_namespace cacheTwo 9 0 sdTwo taskDoneA0).2 rfl).2
     ⟨(0, taskDoneA0), by decide, by decide, by decide⟩⟩

end Anything
